import Mathlib

/-!
# Network connectivity & impact analysis engine: verification development

A shallow embedding of the graph-analysis core of the utilities-geospatial
application, translated from:

* `backend/app/api/graph.py` (on-demand outage analysis and spread simulation),
* `scripts/compute-criticality.py` (batch criticality precomputation),
* `scripts/generate-network.py` (graph construction from pipe geometries).

Database tables become lists of records: `synth.graph_edges` is a list of
`Edge`, `synth.services` a list of `Service`, `osm.buildings` a list of
building ids.  SQL result sets have no specified row order, so a table is
embedded as a list whose order stands for the arbitrary physical row order;
"the same graph" means lists equal up to permutation.  The pgRouting
traversal `pgr_drivingDistance(edges_sql, source, bound, false)` (undirected,
unit cost per edge) is embedded as breadth-first layers: the set of nodes
whose hop distance from the source is at most the bound.  Numeric lengths
(`length_m`, double precision in the database) are embedded as rationals.

The file is organised as: data model and operations first, then the
theorems about them.
-/

namespace UtilNet

/-- A row of `synth.graph_edges`: serial id, endpoint node ids, originating
pipe id.  (Geometry and physical attributes are irrelevant to the claims.) -/
structure Edge where
  id : Nat
  source : Nat
  target : Nat
  pipe_id : Nat
  deriving DecidableEq, Repr

/-- A row of `synth.services`: serial id, the building it serves, the pipe it
taps, and the length of the connecting segment. -/
structure Service where
  id : Nat
  building_id : Nat
  pipe_id : Nat
  length_m : Rat
  deriving DecidableEq, Repr

/-- The database state the analysis endpoints read: `synth.graph_edges`,
`synth.services` and the ids of `osm.buildings` rows. -/
structure Network where
  edges : List Edge
  services : List Service
  buildings : List Nat
  deriving DecidableEq, Repr

/-- `SELECT DISTINCT` / duplicate elimination, keeping the first occurrence
of each value.  (SQL leaves the output order unspecified; the embedding picks
the first-occurrence order, so reorderings of the input model reorderings of
the database rows.) -/
def dedupFirst : List Nat → List Nat
  | [] => []
  | x :: xs => x :: (dedupFirst xs).filter (fun y => !(y == x))

/-- Combined incident-edge count of a node: the number of edges listing it as
source plus the number listing it as target (the `SUM(edge_count)` of the
`hub_node`/`main_hub` CTEs in `graph.py` and of the hub query in
`compute-criticality.py`). -/
def degreeOf (es : List Edge) (n : Nat) : Nat :=
  (es.filter (fun e => e.source == n)).length + (es.filter (fun e => e.target == n)).length

/-- The nodes appearing as a source or target of some edge, in row order:
the candidate rows of the hub query. -/
def candidateNodes (es : List Edge) : List Nat :=
  dedupFirst (es.map (·.source) ++ es.map (·.target))

/-- The hub node: `ORDER BY SUM(edge_count) DESC LIMIT 1`.  SQL does not
specify which row a `LIMIT 1` keeps among ties, so the embedding resolves
ties by row order (the first candidate attaining the maximum combined
incident-edge count); reordering the edge rows models the database choosing
a different tied row. -/
def hubNode (es : List Edge) : Option Nat :=
  (candidateNodes es).foldl
    (fun acc n =>
      match acc with
      | none => some n
      | some m => if degreeOf es m < degreeOf es n then some n else some m)
    none

/-- Nodes adjacent to `n` across the undirected view of the edge list
(each call of `pgr_drivingDistance` passes `directed := false`). -/
def neighbors (es : List Edge) (n : Nat) : List Nat :=
  ((es.filter (fun e => e.source == n)).map (·.target)) ++
    ((es.filter (fun e => e.target == n)).map (·.source))

/-- One breadth-first expansion: the current node set together with every
neighbor of a current node, duplicates removed. -/
def reachStep (es : List Edge) (cur : List Nat) : List Nat :=
  dedupFirst (cur ++ cur.flatMap (neighbors es))

/-- Bounded breadth-first traversal: `reachAux es fuel cur` expands `cur` at
most `fuel` times, stopping early once a fixed point is reached.  The early
exit is sound because a fixed point of one expansion is a fixed point of all
further ones (`reachAux_eq_iterate`); it keeps the definition kernel-friendly
at the literal bound 10000 used by the source. -/
def reachAux (es : List Edge) : Nat → List Nat → List Nat
  | 0, cur => cur
  | fuel + 1, cur =>
    let next := reachStep es cur
    if next = cur then cur else reachAux es fuel next

/-- The literal cost bound `10000` passed to every unbounded-intent
`pgr_drivingDistance` call in `graph.py` and `compute-criticality.py`. -/
def drivingDistanceCap : Nat := 10000

/-- `pgr_drivingDistance('... FROM synth.graph_edges', src, 10000, false)`:
the set of nodes within 10000 hops of `src` over the undirected edge list. -/
def reachSet (es : List Edge) (src : Nat) : List Nat :=
  reachAux es drivingDistanceCap [src]

/-- `Reaches es a b k`: there is an undirected walk of length exactly `k`
from `a` to `b` along the edge list — the graph-theoretic meaning of the
traversal the endpoints delegate to `pgr_drivingDistance`. -/
inductive Reaches (es : List Edge) : Nat → Nat → Nat → Prop
  | refl (a : Nat) : Reaches es a a 0
  | step {a b c : Nat} {k : Nat} (h : Reaches es a b k) (e : Edge) (he : e ∈ es)
      (hbc : (e.source = b ∧ e.target = c) ∨ (e.target = b ∧ e.source = c)) :
      Reaches es a c (k + 1)

/-- `... FROM synth.graph_edges WHERE id != eid`: the edge table with the
target edge excluded, the stored graph unchanged. -/
def removeEdge (es : List Edge) (eid : Nat) : List Edge :=
  es.filter (fun e => !(e.id == eid))

/-- `SELECT EXISTS(SELECT 1 FROM synth.graph_edges WHERE id = :edge_id)`. -/
def edgeExists (es : List Edge) (eid : Nat) : Bool :=
  es.any (fun e => e.id == eid)

/-- `disconnected_nodes`: nodes reachable from the hub before the break but
not after (`reachable_before` minus `reachable_after`). -/
def disconnectedNodes (es : List Edge) (hub eid : Nat) : List Nat :=
  (reachSet es hub).filter (fun n => !((reachSet (removeEdge es eid) hub).contains n))

/-- `disconnected_pipes`: `SELECT DISTINCT e.pipe_id FROM synth.graph_edges e
WHERE e.source_id IN disconnected OR e.target_id IN disconnected`. -/
def affectedPipes (es : List Edge) (disc : List Nat) : List Nat :=
  dedupFirst ((es.filter (fun e => disc.contains e.source || disc.contains e.target)).map (·.pipe_id))

/-- `affected_services`: services whose pipe is a disconnected pipe. -/
def affectedServices (svcs : List Service) (pipes : List Nat) : List Service :=
  svcs.filter (fun s => pipes.contains s.pipe_id)

/-- `affected_buildings`: `SELECT DISTINCT building_id FROM affected_services`. -/
def affectedBuildingIds (svcs : List Service) : List Nat :=
  dedupFirst (svcs.map (·.building_id))

/-- `COALESCE(SUM(length_m), 0)` over the affected services. -/
def sumLengths (svcs : List Service) : Rat :=
  (svcs.map (·.length_m)).sum

/-- Python's `round(x, 1)`, idealized over the rationals: round to one
decimal place. -/
def round1 (q : Rat) : Rat :=
  ((⌊q * 10 + 1/2⌋ : Int) : Rat) / 10

/-- The error taxonomy visible in the embedded endpoints: `HTTPException`
with status 404. -/
inductive ApiError
  | notFound
  deriving DecidableEq, Repr

instance {e a : Type} [DecidableEq e] [DecidableEq a] : DecidableEq (Except e a) := fun x y =>
  match x, y with
  | .error e1, .error e2 => decidable_of_iff (e1 = e2) (by simp)
  | .error _, .ok _ => isFalse (fun hc => Except.noConfusion hc)
  | .ok _, .error _ => isFalse (fun hc => Except.noConfusion hc)
  | .ok a1, .ok a2 => decidable_of_iff (a1 = a2) (by simp)

/-- The `stats` object of an outage response. -/
structure OutageStats where
  affected_building_count : Nat
  affected_service_count : Nat
  total_service_length_m : Rat
  deriving DecidableEq, Repr

/-- An outage response: the building ids of the returned features plus the
aggregate stats. -/
structure OutageResponse where
  features : List Nat
  stats : OutageStats
  deriving DecidableEq, Repr

/-- `GET /graph/outage/{edge_id}` (`get_outage_impact` in `graph.py`).

Faithful to the source: the 404 existence check; the hub recomputed from the
current edge table (`(hubNode _).getD 0` — the `getD` branch is unreachable
because the existence check guarantees a nonempty edge table, hence a
nonempty `main_hub`); the before/after reachability comparison; and the
Python quirk that `service_count` and `total_service_length_m` are read off
the first returned building row (`rows[0]... if rows else 0`), so both are
zero whenever no building row comes back.  The returned building rows carry
no `ORDER BY`; they are listed in `osm.buildings` row order. -/
def get_outage_impact (net : Network) (eid : Nat) : Except ApiError OutageResponse :=
  if edgeExists net.edges eid then
    let hub := (hubNode net.edges).getD 0
    let disc := disconnectedNodes net.edges hub eid
    let pipes := affectedPipes net.edges disc
    let svcs := affectedServices net.services pipes
    let bids := affectedBuildingIds svcs
    let rows := net.buildings.filter (fun b => bids.contains b)
    .ok
      { features := rows
        stats :=
          { affected_building_count := rows.length
            affected_service_count := if rows.isEmpty then 0 else svcs.length
            total_service_length_m := if rows.isEmpty then 0 else round1 (sumLengths svcs) } }
  else
    .error .notFound

/-- Abbreviation for the `disconnected_nodes` stage of one outage call. -/
def outDisc (net : Network) (hub eid : Nat) : List Nat :=
  disconnectedNodes net.edges hub eid

/-- Abbreviation for the `affected_services` stage of one outage call. -/
def outSvcs (net : Network) (hub eid : Nat) : List Service :=
  affectedServices net.services (affectedPipes net.edges (disconnectedNodes net.edges hub eid))

/-- The building rows returned by the final select of one outage call. -/
def outRows (net : Network) (hub eid : Nat) : List Nat :=
  net.buildings.filter (fun b => (affectedBuildingIds (outSvcs net hub eid)).contains b)

/-- The §4.3 pipeline contract of a successful outage call, stated
declaratively: some response is returned whose hub is a maximal-degree
candidate, whose disconnected nodes are exactly the nodes walk-reachable
from the hub (within the traversal bound) on the full graph but not with the
target edge excluded, whose affected pipes/services are characterized by
incidence and reference, and whose three statistics are the distinct-building
count, the affected-service count and the (rounded) sum of affected service
lengths. -/
def OutagePipelineSpec (net : Network) (eid : Nat) : Prop :=
  ∃ r hub,
    get_outage_impact net eid = .ok r ∧
    hubNode net.edges = some hub ∧
    hub ∈ candidateNodes net.edges ∧
    (∀ n ∈ candidateNodes net.edges, degreeOf net.edges n ≤ degreeOf net.edges hub) ∧
    (∀ n, n ∈ outDisc net hub eid ↔
      ((∃ j ≤ drivingDistanceCap, Reaches net.edges hub n j) ∧
        ¬ ∃ j ≤ drivingDistanceCap, Reaches (removeEdge net.edges eid) hub n j)) ∧
    (∀ p, p ∈ affectedPipes net.edges (outDisc net hub eid) ↔
      ∃ e ∈ net.edges, e.pipe_id = p ∧
        (e.source ∈ outDisc net hub eid ∨ e.target ∈ outDisc net hub eid)) ∧
    (∀ s, s ∈ outSvcs net hub eid ↔
      s ∈ net.services ∧ s.pipe_id ∈ affectedPipes net.edges (outDisc net hub eid)) ∧
    r.features = outRows net hub eid ∧
    r.stats.affected_building_count = (affectedBuildingIds (outSvcs net hub eid)).length ∧
    r.stats.affected_service_count = (outSvcs net hub eid).length ∧
    r.stats.total_service_length_m = round1 (sumLengths (outSvcs net hub eid))

/-- The per-edge body of the loop in `compute-criticality.py`: reachability
after removing the edge, newly disconnected nodes against the precomputed
full-graph reachable set, and `COUNT(DISTINCT s.building_id)` over the
services of the disconnected pipes (computed only `if disconnected_nodes:`,
otherwise 0). -/
def batchScore (es : List Edge) (svcs : List Service) (hub : Nat)
    (fullReachable : List Nat) (eid : Nat) : Nat :=
  let afterReachable := reachSet (removeEdge es eid) hub
  let disc := fullReachable.filter (fun n => !(afterReachable.contains n))
  if disc.isEmpty then 0
  else (affectedBuildingIds (affectedServices svcs (affectedPipes es disc))).length

/-- `compute_criticality` in `compute-criticality.py`: hub node and
full-graph reachable set computed once, then one score per edge id in
`ORDER BY id` order.  The result lists the `(edge id, affected building
count)` pairs the script writes back with its per-edge `UPDATE`. -/
def compute_criticality_scores (net : Network) : List (Nat × Nat) :=
  let hub := (hubNode net.edges).getD 0
  let fullReachable := reachSet net.edges hub
  let ids := List.insertionSort (· ≤ ·) (net.edges.map (·.id))
  ids.map (fun eid => (eid, batchScore net.edges net.services hub fullReachable eid))

/-- The breadth-first layer after `k` expansions (all nodes within `k` hops
of `src`). -/
def reachLayer (es : List Edge) (src k : Nat) : List Nat :=
  (reachStep es)^[k] [src]

/-- The `reachable_nodes` CTE of `/graph/spread`:
`pgr_drivingDistance(..., src, max_hops, false)` reports each node reachable
within the bound together with its hop distance `agg_cost`; `nodeHop` is that
mapping — the least `k ≤ bound` whose breadth-first layer holds `n`, `none`
if the node is not reached within the bound. -/
def nodeHop (es : List Edge) (src bound n : Nat) : Option Nat :=
  (List.range (bound + 1)).find? (fun k => (reachLayer es src k).contains n)

/-- One feature of a spread response: the edge id and its hop value. -/
structure SpreadRow where
  edge_id : Nat
  hop : Nat
  deriving DecidableEq, Repr

/-- The `ORDER BY hop, edge_id` of the spread query. -/
def spreadRowLE (a b : SpreadRow) : Prop :=
  a.hop < b.hop ∨ (a.hop = b.hop ∧ a.edge_id ≤ b.edge_id)

instance : DecidableRel spreadRowLE := fun a b =>
  decidable_of_iff (a.hop < b.hop ∨ (a.hop = b.hop ∧ a.edge_id ≤ b.edge_id)) Iff.rfl

instance : IsTotal SpreadRow spreadRowLE :=
  ⟨by
    intro a b
    rw [spreadRowLE, spreadRowLE]
    omega⟩

instance : IsTrans SpreadRow spreadRowLE :=
  ⟨by
    intro a b c hab hbc
    rw [spreadRowLE] at hab hbc ⊢
    omega⟩

instance : IsAntisymm SpreadRow spreadRowLE :=
  ⟨by
    intro a b hab hba
    rw [spreadRowLE] at hab hba
    cases a
    cases b
    simp only [SpreadRow.mk.injEq]
    simp only at hab hba
    omega⟩

/-- The `edges_with_hops` CTE and final select of `/graph/spread`: every edge
with at least one endpoint reached within `maxHops` (the `LEFT JOIN`s plus
`WHERE r1.node IS NOT NULL OR r2.node IS NOT NULL`), given hop
`LEAST(COALESCE(r1.hop, maxHops+1), COALESCE(r2.hop, maxHops+1))`, filtered
to `hop <= maxHops` and ordered by `(hop, edge_id)`.  (`DISTINCT ON (e.id)`
in the source is the identity here: `id` is the table's serial primary key
and `reachable_nodes` has one row per node, so each edge joins at most one
`r1` and one `r2` row.) -/
def spreadRows (es : List Edge) (srcNode maxHops : Nat) : List SpreadRow :=
  let joined := es.filter (fun e =>
    (nodeHop es srcNode maxHops e.source).isSome || (nodeHop es srcNode maxHops e.target).isSome)
  let rows := joined.map (fun e =>
    { edge_id := e.id
      hop := min ((nodeHop es srcNode maxHops e.source).getD (maxHops + 1))
               ((nodeHop es srcNode maxHops e.target).getD (maxHops + 1)) : SpreadRow })
  List.insertionSort spreadRowLE (rows.filter (fun r => r.hop ≤ maxHops))

/-- The strict `(distance, edge id)` ordering under which the modelled
`find_nearest_edge` minimizes. -/
def edgeLt (dist : Edge → Rat) (e b : Edge) : Prop :=
  dist e < dist b ∨ (dist e = dist b ∧ e.id < b.id)

instance (dist : Edge → Rat) : DecidableRel (edgeLt dist) := fun e b =>
  decidable_of_iff (dist e < dist b ∨ (dist e = dist b ∧ e.id < b.id)) Iff.rfl

/-- One comparison step of the modelled nearest-edge scan: keep the closer
edge, break distance ties towards the smaller edge id. -/
def nearestStep (dist : Edge → Rat) (acc : Option Edge) (e : Edge) : Option Edge :=
  match acc with
  | none => some e
  | some b =>
    if dist e < dist b then some e
    else if dist e = dist b ∧ e.id < b.id then some e
    else some b

/-- Modelled from the spec: the SQL function `find_nearest_edge(lon, lat)` is
declared in the database, not under `src/`; per §4.6 it returns the edge of
minimum distance to the point, ties broken by smallest distance then smallest
edge id, and no row when there is no edge.  The point-to-edge geometric
distance is abstracted as the parameter `dist`. -/
def find_nearest_edge (dist : Edge → Rat) (es : List Edge) : Option Edge :=
  es.foldl (nearestStep dist) none

/-- `GET /graph/spread` (`get_spread` in `graph.py`): snap the origin to the
nearest edge (404 if none), look up that edge's `source_id` as the
propagation origin, and run the bounded spread query.  The inner `none`
branch is unreachable — the snapped edge is a row of the same table the
lookup scans. -/
def get_spread (net : Network) (dist : Edge → Rat) (maxHops : Nat) :
    Except ApiError (List SpreadRow) :=
  match find_nearest_edge dist net.edges with
  | none => .error .notFound
  | some e0 =>
    match net.edges.find? (fun e => e.id == e0.id) with
    | none => .error .notFound
    | some e1 => .ok (spreadRows net.edges e1.source maxHops)

/-- `HopDist es src n d`: `d` is the exact hop distance of `n` from `src` —
some walk of length `d` exists and none shorter. -/
def HopDist (es : List Edge) (src n d : Nat) : Prop :=
  Reaches es src n d ∧ ∀ j < d, ¬ Reaches es src n j

/-- The §4.4 contract of the rows of a spread response with propagation
origin `origin` and bound `maxHops`: every returned row respects the hop
cap, its hop value is attained by one of its edge's endpoints' hop distances
and is a lower bound for both (an endpoint not reached within the bound has
hop distance above the cap, hence contributes no smaller value), and the
rows are ordered by `(hop, edge id)`. -/
def SpreadRowsSpec (es : List Edge) (origin maxHops : Nat) (rows : List SpreadRow) : Prop :=
  (∀ r ∈ rows, r.hop ≤ maxHops ∧
    ∃ e ∈ es, e.id = r.edge_id ∧
      (HopDist es origin e.source r.hop ∨ HopDist es origin e.target r.hop) ∧
      (∀ d, HopDist es origin e.source d → r.hop ≤ d) ∧
      (∀ d, HopDist es origin e.target d → r.hop ≤ d)) ∧
  rows.Pairwise spreadRowLE

/-- A row of `synth.pipes` as `build_graph` in `generate-network.py` consumes
it: its id and the two endpoints of its line geometry
(`ST_StartPoint(geom)` / `ST_EndPoint(geom)`), as planar coordinates. -/
structure Pipe where
  id : Nat
  startPt : Rat × Rat
  endPt : Rat × Rat
  deriving DecidableEq, Repr

/-- A row of `synth.graph_nodes`: serial id and point geometry. -/
structure GNode where
  id : Nat
  geom : Rat × Rat
  deriving DecidableEq, Repr

/-- The `endpoints` CTE: every pipe's start point and end point, one row
each (`UNION ALL`, so with multiplicity). -/
def endpointsOf (pipes : List Pipe) : List (Rat × Rat) :=
  pipes.map (·.startPt) ++ pipes.map (·.endPt)

/-- `ST_Centroid(ST_Collect(pt))` of a collection of points: the coordinate
mean (with multiplicity). -/
def centroid (pts : List (Rat × Rat)) : Rat × Rat :=
  ((pts.map Prod.fst).sum / (pts.length : Rat), (pts.map Prod.snd).sum / (pts.length : Rat))

/-- The centroid of the DBSCAN cluster with id `cid` (the
`cluster_centroids` CTE).  `ST_ClusterDBSCAN(pt, eps, minpoints := 1) OVER()`
is a PostGIS window function assigning every endpoint a cluster id; with
`minpoints := 1` no point is noise, so the assignment is total.  It is
embedded as the parameter `cluster`, a total assignment of cluster ids to
points — the claims hold for every such assignment. -/
def clusterCentroid (cluster : Rat × Rat → Nat) (pipes : List Pipe) (cid : Nat) : Rat × Rat :=
  centroid ((endpointsOf pipes).filter (fun p => cluster p == cid))

/-- `INSERT INTO synth.graph_nodes (geom) SELECT geom FROM cluster_centroids`:
one node per distinct cluster id, serial ids from 1 in insertion order. -/
def graphNodes (cluster : Rat × Rat → Nat) (pipes : List Pipe) : List GNode :=
  (dedupFirst ((endpointsOf pipes).map cluster)).enum.map
    (fun ic => { id := ic.1 + 1, geom := clusterCentroid cluster pipes ic.2 })

/-- `ST_DWithin(p, q, tol)` on planar geometry: distance at most `tol`,
stated on squared distances to stay within the rationals. -/
def dwithin (p q : Rat × Rat) (tol : Rat) : Bool :=
  decide ((p.1 - q.1) ^ 2 + (p.2 - q.2) ^ 2 ≤ tol ^ 2)

/-- The tolerance literal `0.000001` of the node-resolution subqueries. -/
def resolveTol : Rat := 1 / 1000000

/-- The per-endpoint subquery of the `pipe_nodes` CTE:
`SELECT n.id FROM synth.graph_nodes n WHERE ST_DWithin(n.geom, node_geom,
0.000001) LIMIT 1` — the first stored node within tolerance of the
endpoint's cluster centroid, if any. -/
def resolveNode (ns : List GNode) (pt : Rat × Rat) : Option Nat :=
  (ns.find? (fun n => dwithin n.geom pt resolveTol)).map (·.id)

/-- Both endpoint resolutions of one pipe: `(source_id, target_id)` when both
succeed, `none` otherwise. -/
def pipeNodeIds (cluster : Rat × Rat → Nat) (pipes : List Pipe) (ns : List GNode)
    (p : Pipe) : Option (Nat × Nat) :=
  match resolveNode ns (clusterCentroid cluster pipes (cluster p.startPt)),
      resolveNode ns (clusterCentroid cluster pipes (cluster p.endPt)) with
  | some s, some t => some (s, t)
  | _, _ => none

/-- `build_graph` in `generate-network.py`: truncate and regenerate
`synth.graph_nodes` (one per endpoint cluster) and `synth.graph_edges`
(one per pipe whose start and end both resolve to a stored node —
`WHERE pn.source_id IS NOT NULL AND pn.target_id IS NOT NULL`; a pipe failing
that filter is simply not inserted, and the function still returns
normally). -/
def build_graph (cluster : Rat × Rat → Nat) (pipes : List Pipe) :
    List GNode × List Edge :=
  let ns := graphNodes cluster pipes
  let kept := pipes.filterMap (fun p => (pipeNodeIds cluster pipes ns p).map (fun st => (p, st)))
  let es := kept.enum.map (fun ik =>
    { id := ik.1 + 1, source := ik.2.2.1, target := ik.2.2.2, pipe_id := ik.2.1.id : Edge })
  (ns, es)

/-- One database action of the criticality batch job's connection:
a per-edge `UPDATE`, or `conn.commit()`. -/
inductive DbAction
  | update (eid score : Nat)
  | commit
  deriving DecidableEq, Repr

/-- psycopg2 transaction state (autocommit off): `committed` is what other
connections — and a run aborted before `COMMIT` — observe; `pending` is the
uncommitted view of the `affected_building_count` column, keyed by edge id. -/
structure TxState where
  committed : List (Nat × Nat)
  pending : List (Nat × Nat)
  deriving DecidableEq, Repr

/-- `UPDATE synth.graph_edges SET affected_building_count = n WHERE id = eid`
against a keyed store: rewrites matching rows, touches nothing else. -/
def setScore (store : List (Nat × Nat)) (eid n : Nat) : List (Nat × Nat) :=
  store.map (fun p => if p.1 == eid then (p.1, n) else p)

/-- Transaction semantics: updates act on the pending view only; `commit`
publishes the pending view. -/
def applyAction (s : TxState) : DbAction → TxState
  | .update eid n => { s with pending := setScore s.pending eid n }
  | .commit => { committed := s.pending, pending := s.pending }

def runActions (s : TxState) (acts : List DbAction) : TxState :=
  acts.foldl applyAction s

/-- The write trace of `compute_criticality`: one `UPDATE` per edge in loop
order, then the single `conn.commit()` after the loop. -/
def criticalityScript (net : Network) : List DbAction :=
  (compute_criticality_scores net).map (fun p => .update p.1 p.2) ++ [.commit]

/-- The two-edge path 1–2–3 (pipes 1, 2) with building 20 served through
pipe 2: a concrete input for witnesses. -/
def pathNet : Network :=
  { edges := [⟨1, 1, 2, 1⟩, ⟨2, 2, 3, 2⟩],
    services := [⟨1, 20, 2, 3/2⟩], buildings := [20, 30] }

/-- The same network as `pathNet` with the edge rows in reverse order. -/
def pathNetRev : Network :=
  { edges := [⟨2, 2, 3, 2⟩, ⟨1, 1, 2, 1⟩],
    services := [⟨1, 20, 2, 3/2⟩], buildings := [20, 30] }

/-- The three-edge path 1–2–3–4 (pipes 1, 2, 3) with building 10 served
through pipe 3: nodes 2 and 3 tie for the hub, so the row order decides the
`LIMIT 1` hub selection. -/
def tiePathNet : Network :=
  { edges := [⟨1, 1, 2, 1⟩, ⟨2, 2, 3, 2⟩, ⟨3, 3, 4, 3⟩],
    services := [⟨1, 10, 3, 1⟩], buildings := [10] }

/-- The same network as `tiePathNet` with the edge rows in reverse order:
its hub selection resolves the tie to node 3 instead of node 2. -/
def tiePathNetRev : Network :=
  { edges := [⟨3, 3, 4, 3⟩, ⟨2, 2, 3, 2⟩, ⟨1, 1, 2, 1⟩],
    services := [⟨1, 10, 3, 1⟩], buildings := [10] }

/-- A one-edge network whose only building is served through that edge:
the concrete input of the C6 analysis. -/
def singleEdgeNet : Network :=
  { edges := [⟨1, 1, 2, 1⟩], services := [⟨1, 10, 1, 1⟩], buildings := [10] }

/-! ## Theorems -/

theorem mem_dedupFirst {l : List Nat} {a : Nat} : a ∈ dedupFirst l ↔ a ∈ l := by
  induction l with
  | nil => simp [dedupFirst]
  | cons x xs ih =>
    simp only [dedupFirst, List.mem_cons, List.mem_filter]
    constructor
    · rintro (rfl | ⟨h, _⟩)
      · exact .inl rfl
      · exact .inr (ih.mp h)
    · rintro (rfl | h)
      · exact .inl rfl
      · by_cases hx : a = x
        · exact .inl hx
        · exact .inr ⟨ih.mpr h, by simp [hx]⟩

theorem nodup_dedupFirst (l : List Nat) : (dedupFirst l).Nodup := by
  induction l with
  | nil => simp [dedupFirst]
  | cons x xs ih =>
    simp only [dedupFirst]
    refine List.Nodup.cons ?_ (ih.filter _)
    intro hmem
    rcases List.mem_filter.mp hmem with ⟨_, hne⟩
    simp at hne

theorem contains_iff {l : List Nat} {a : Nat} : l.contains a = true ↔ a ∈ l :=
  List.elem_iff

theorem reachAux_eq_iterate (es : List Edge) :
    ∀ (fuel : Nat) (cur : List Nat), reachAux es fuel cur = (reachStep es)^[fuel] cur := by
  intro fuel
  induction fuel with
  | zero => intro cur; rfl
  | succ f ih =>
    intro cur
    simp only [reachAux]
    by_cases h : reachStep es cur = cur
    · simp [h, Function.iterate_fixed h]
    · simp [h, ih (reachStep es cur), Function.iterate_succ_apply]

theorem mem_neighbors {es : List Edge} {n x : Nat} :
    x ∈ neighbors es n ↔
      ∃ e ∈ es, (e.source = n ∧ e.target = x) ∨ (e.target = n ∧ e.source = x) := by
  simp only [neighbors, List.mem_append, List.mem_map, List.mem_filter, beq_iff_eq]
  constructor
  · rintro (⟨e, ⟨he, hs⟩, ht⟩ | ⟨e, ⟨he, ht⟩, hs⟩)
    · exact ⟨e, he, .inl ⟨hs, ht⟩⟩
    · exact ⟨e, he, .inr ⟨ht, hs⟩⟩
  · rintro ⟨e, he, ⟨hs, ht⟩ | ⟨ht, hs⟩⟩
    · exact .inl ⟨e, ⟨he, hs⟩, ht⟩
    · exact .inr ⟨e, ⟨he, ht⟩, hs⟩

theorem mem_reachStep {es : List Edge} {cur : List Nat} {x : Nat} :
    x ∈ reachStep es cur ↔ x ∈ cur ∨ ∃ y ∈ cur, x ∈ neighbors es y := by
  simp only [reachStep, mem_dedupFirst, List.mem_append, List.mem_flatMap]

theorem reaches_zero {es : List Edge} {a b : Nat} (h : Reaches es a b 0) : a = b := by
  cases h; rfl

/-- Breadth-first correctness: after `k` expansions of `[src]`, the computed
node list holds exactly the nodes admitting a walk of length at most `k`
from `src`. -/
theorem mem_iterate_reachStep {es : List Edge} {src : Nat} :
    ∀ {k x : Nat}, x ∈ (reachStep es)^[k] [src] ↔ ∃ j ≤ k, Reaches es src x j := by
  intro k
  induction k with
  | zero =>
    intro x
    simp only [Function.iterate_zero, id_eq, List.mem_singleton]
    constructor
    · intro hx
      subst hx
      exact ⟨0, le_refl 0, .refl _⟩
    · rintro ⟨j, hj, hr⟩
      interval_cases j
      exact (reaches_zero hr).symm
  | succ k ih =>
    intro x
    rw [Function.iterate_succ_apply', mem_reachStep]
    constructor
    · rintro (hx | ⟨y, hy, hn⟩)
      · rcases ih.mp hx with ⟨j, hj, hr⟩
        exact ⟨j, Nat.le_succ_of_le hj, hr⟩
      · rcases ih.mp hy with ⟨j, hj, hr⟩
        rcases mem_neighbors.mp hn with ⟨e, he, hbc⟩
        exact ⟨j + 1, Nat.succ_le_succ hj, .step hr e he hbc⟩
    · rintro ⟨j, hj, hr⟩
      cases hr with
      | refl =>
        left
        exact ih.mpr ⟨0, Nat.zero_le k, .refl src⟩
      | step h e he hbc =>
        rename_i b m
        rcases Nat.lt_or_ge m k with hm | hm
        · left
          exact ih.mpr ⟨m + 1, hm, .step h e he hbc⟩
        · have hmk : m ≤ k := by omega
          right
          exact ⟨b, ih.mpr ⟨m, hmk, h⟩, mem_neighbors.mpr ⟨e, he, hbc⟩⟩

/-- The reachability set used by outage analysis is exactly the set of nodes
with a walk of length at most 10000 from the source. -/
theorem mem_reachSet {es : List Edge} {src x : Nat} :
    x ∈ reachSet es src ↔ ∃ j ≤ drivingDistanceCap, Reaches es src x j := by
  rw [reachSet, reachAux_eq_iterate]
  exact mem_iterate_reachStep

theorem mem_neighbors_congr {es₁ es₂ : List Edge} (h : ∀ e, e ∈ es₁ ↔ e ∈ es₂)
    {n x : Nat} : x ∈ neighbors es₁ n ↔ x ∈ neighbors es₂ n := by
  rw [mem_neighbors, mem_neighbors]
  constructor <;> rintro ⟨e, he, hbc⟩
  · exact ⟨e, (h e).mp he, hbc⟩
  · exact ⟨e, (h e).mpr he, hbc⟩

theorem mem_reachStep_congr {es₁ es₂ : List Edge} {c₁ c₂ : List Nat}
    (he : ∀ e, e ∈ es₁ ↔ e ∈ es₂) (hc : ∀ x, x ∈ c₁ ↔ x ∈ c₂) (x : Nat) :
    x ∈ reachStep es₁ c₁ ↔ x ∈ reachStep es₂ c₂ := by
  rw [mem_reachStep, mem_reachStep]
  constructor <;> rintro (hx | ⟨y, hy, hn⟩)
  · exact .inl ((hc x).mp hx)
  · exact .inr ⟨y, (hc y).mp hy, (mem_neighbors_congr he).mp hn⟩
  · exact .inl ((hc x).mpr hx)
  · exact .inr ⟨y, (hc y).mpr hy, (mem_neighbors_congr he).mpr hn⟩

theorem mem_iterate_reachStep_congr {es₁ es₂ : List Edge} {c₁ c₂ : List Nat}
    (he : ∀ e, e ∈ es₁ ↔ e ∈ es₂) (hc : ∀ x, x ∈ c₁ ↔ x ∈ c₂) :
    ∀ (k : Nat) (x : Nat), x ∈ (reachStep es₁)^[k] c₁ ↔ x ∈ (reachStep es₂)^[k] c₂ := by
  intro k
  induction k generalizing c₁ c₂ with
  | zero => simpa using hc
  | succ k ih =>
    intro x
    rw [Function.iterate_succ_apply, Function.iterate_succ_apply]
    exact ih (mem_reachStep_congr he hc) x

theorem mem_reachSet_congr {es₁ es₂ : List Edge} (he : ∀ e, e ∈ es₁ ↔ e ∈ es₂)
    {src x : Nat} : x ∈ reachSet es₁ src ↔ x ∈ reachSet es₂ src := by
  rw [reachSet, reachSet, reachAux_eq_iterate, reachAux_eq_iterate]
  exact mem_iterate_reachStep_congr he (fun _ => Iff.rfl) _ x

theorem contains_eq_of_mem_iff {l₁ l₂ : List Nat} (h : ∀ x, x ∈ l₁ ↔ x ∈ l₂) (a : Nat) :
    l₁.contains a = l₂.contains a := by
  rw [Bool.eq_iff_iff, contains_iff, contains_iff]
  exact h a

theorem dedupFirst_eq_nil {l : List Nat} : dedupFirst l = [] ↔ l = [] := by
  cases l with
  | nil => simp [dedupFirst]
  | cons x xs => simp [dedupFirst]

theorem hub_foldl_spec (es : List Edge) :
    ∀ (l : List Nat) (acc : Option Nat) (h : Nat),
      l.foldl
        (fun acc n =>
          match acc with
          | none => some n
          | some m => if degreeOf es m < degreeOf es n then some n else some m)
        acc = some h →
      (acc = some h ∨ h ∈ l) ∧ (∀ n ∈ l, degreeOf es n ≤ degreeOf es h) ∧
        (∀ m, acc = some m → degreeOf es m ≤ degreeOf es h) := by
  intro l
  induction l with
  | nil =>
    intro acc h hf
    refine ⟨.inl hf, by simp, ?_⟩
    rintro m rfl
    simp only [List.foldl_nil, Option.some.injEq] at hf
    rw [hf]
  | cons x xs ih =>
    intro acc h hf
    rw [List.foldl_cons] at hf
    rcases ih _ _ hf with ⟨hmem, hmax, hacc⟩
    match acc with
    | none =>
      simp only at hmem hacc
      refine ⟨.inr ?_, ?_, by rintro m ⟨⟩⟩
      · rcases hmem with hx | hx
        · simp only [Option.some.injEq] at hx
          exact List.mem_cons.mpr (.inl hx.symm)
        · exact List.mem_cons.mpr (.inr hx)
      · intro n hn
        rcases List.mem_cons.mp hn with rfl | hn
        · exact hacc n rfl
        · exact hmax n hn
    | some m =>
      simp only at hmem hacc
      by_cases hlt : degreeOf es m < degreeOf es x
      · rw [if_pos hlt] at hmem hacc
        refine ⟨?_, ?_, ?_⟩
        · rcases hmem with hx | hx
          · simp only [Option.some.injEq] at hx
            exact .inr (List.mem_cons.mpr (.inl hx.symm))
          · exact .inr (List.mem_cons.mpr (.inr hx))
        · intro n hn
          rcases List.mem_cons.mp hn with rfl | hn
          · exact hacc n rfl
          · exact hmax n hn
        · rintro m' hm'
          injection hm' with hm'
          subst hm'
          exact le_of_lt (lt_of_lt_of_le hlt (hacc x rfl))
      · rw [if_neg hlt] at hmem hacc
        refine ⟨?_, ?_, ?_⟩
        · rcases hmem with hx | hx
          · exact .inl hx
          · exact .inr (List.mem_cons.mpr (.inr hx))
        · intro n hn
          rcases List.mem_cons.mp hn with rfl | hn
          · exact le_trans (Nat.le_of_not_lt hlt) (hacc m rfl)
          · exact hmax n hn
        · rintro m' hm'
          injection hm' with hm'
          subst hm'
          exact hacc m rfl

/-- The hub query returns a candidate of maximal combined incident-edge
count. -/
theorem hubNode_spec {es : List Edge} {h : Nat} (hh : hubNode es = some h) :
    h ∈ candidateNodes es ∧ ∀ n ∈ candidateNodes es, degreeOf es n ≤ degreeOf es h := by
  rcases hub_foldl_spec es (candidateNodes es) none h hh with ⟨hmem, hmax, _⟩
  rcases hmem with h0 | hm
  · cases h0
  · exact ⟨hm, hmax⟩

theorem foldl_hub_some {es : List Edge} :
    ∀ (l : List Nat) (x : Nat),
      (l.foldl
        (fun acc n =>
          match acc with
          | none => some n
          | some m => if degreeOf es m < degreeOf es n then some n else some m)
        (some x)).isSome := by
  intro l
  induction l with
  | nil => intro x; rfl
  | cons y ys ih =>
    intro x
    rw [List.foldl_cons]
    by_cases hlt : degreeOf es x < degreeOf es y
    · simp only [hlt, if_pos]
      exact ih y
    · simp only [if_neg hlt]
      exact ih x

/-- A nonempty edge table yields a hub node. -/
theorem hubNode_isSome {es : List Edge} (h : es ≠ []) : (hubNode es).isSome := by
  cases es with
  | nil => exact absurd rfl h
  | cons e es' =>
    rw [hubNode]
    have hc : candidateNodes (e :: es') = e.source ::
        (dedupFirst (es'.map (·.source) ++ (e :: es').map (·.target))).filter
          (fun y => !(y == e.source)) := by
      simp [candidateNodes, dedupFirst]
    rw [hc, List.foldl_cons]
    exact foldl_hub_some _ _

theorem edgeExists_iff {es : List Edge} {eid : Nat} :
    edgeExists es eid = true ↔ eid ∈ es.map (·.id) := by
  simp only [edgeExists, List.any_eq_true, beq_iff_eq, List.mem_map]

theorem mem_removeEdge {es : List Edge} {eid : Nat} {e : Edge} :
    e ∈ removeEdge es eid ↔ e ∈ es ∧ e.id ≠ eid := by
  simp [removeEdge, List.mem_filter]

theorem mem_disconnectedNodes {es : List Edge} {hub eid n : Nat} :
    n ∈ disconnectedNodes es hub eid ↔
      n ∈ reachSet es hub ∧ n ∉ reachSet (removeEdge es eid) hub := by
  simp [disconnectedNodes, List.mem_filter, contains_iff]

theorem mem_affectedPipes {es : List Edge} {disc : List Nat} {p : Nat} :
    p ∈ affectedPipes es disc ↔
      ∃ e ∈ es, e.pipe_id = p ∧ (e.source ∈ disc ∨ e.target ∈ disc) := by
  simp only [affectedPipes, mem_dedupFirst, List.mem_map, List.mem_filter,
    Bool.or_eq_true, contains_iff]
  constructor
  · rintro ⟨e, ⟨he, hd⟩, rfl⟩
    exact ⟨e, he, rfl, hd⟩
  · rintro ⟨e, he, rfl, hd⟩
    exact ⟨e, ⟨he, hd⟩, rfl⟩

theorem mem_affectedServices {svcs : List Service} {pipes : List Nat} {s : Service} :
    s ∈ affectedServices svcs pipes ↔ s ∈ svcs ∧ s.pipe_id ∈ pipes := by
  simp [affectedServices, List.mem_filter, contains_iff]

theorem mem_affectedBuildingIds {svcs : List Service} {b : Nat} :
    b ∈ affectedBuildingIds svcs ↔ ∃ s ∈ svcs, s.building_id = b := by
  simp only [affectedBuildingIds, mem_dedupFirst, List.mem_map]

/-- Counting distinct ids through the `osm.buildings` join: filtering a
duplicate-free building table down to a duplicate-free id set contained in it
returns exactly one row per id. -/
theorem length_filter_contains {bs ids : List Nat} (hb : bs.Nodup) (hi : ids.Nodup)
    (hsub : ∀ a ∈ ids, a ∈ bs) :
    (bs.filter (fun b => ids.contains b)).length = ids.length := by
  have hperm : (bs.filter (fun b => ids.contains b)).Perm ids := by
    rw [List.perm_ext_iff_of_nodup (hb.filter _) hi]
    intro a
    simp only [List.mem_filter, contains_iff]
    constructor
    · rintro ⟨_, ha⟩
      exact ha
    · intro ha
      exact ⟨hsub a ha, ha⟩
  exact hperm.length_eq

/-- Unfolding a successful outage call to its response record. -/
theorem get_outage_impact_ok {net : Network} {eid : Nat}
    (hex : edgeExists net.edges eid = true) {hub : Nat}
    (hhub : hubNode net.edges = some hub) :
    get_outage_impact net eid = .ok
      { features := outRows net hub eid
        stats :=
          { affected_building_count := (outRows net hub eid).length
            affected_service_count :=
              if (outRows net hub eid).isEmpty then 0 else (outSvcs net hub eid).length
            total_service_length_m :=
              if (outRows net hub eid).isEmpty then 0
              else round1 (sumLengths (outSvcs net hub eid)) } } := by
  rw [get_outage_impact, if_pos hex, hhub]
  rfl

theorem outage_subset_buildings {net : Network} {hub eid : Nat}
    (hint : ∀ s ∈ net.services, s.building_id ∈ net.buildings) :
    ∀ a ∈ affectedBuildingIds (outSvcs net hub eid), a ∈ net.buildings := by
  intro a ha
  rcases mem_affectedBuildingIds.mp ha with ⟨s, hs, rfl⟩
  exact hint s (mem_affectedServices.mp hs).1

theorem outRows_length {net : Network} {hub eid : Nat} (hbn : net.buildings.Nodup)
    (hint : ∀ s ∈ net.services, s.building_id ∈ net.buildings) :
    (outRows net hub eid).length = (affectedBuildingIds (outSvcs net hub eid)).length :=
  length_filter_contains hbn (nodup_dedupFirst _) (outage_subset_buildings hint)

theorem svcs_eq_nil_of_bids_nil {svcs : List Service}
    (h : affectedBuildingIds svcs = []) : svcs = [] := by
  cases svcs with
  | nil => rfl
  | cons s ss =>
    exfalso
    have hmem : s.building_id ∈ affectedBuildingIds (s :: ss) :=
      mem_affectedBuildingIds.mpr ⟨s, List.mem_cons_self s ss, rfl⟩
    rw [h] at hmem
    exact absurd hmem (List.not_mem_nil _)

theorem round1_zero : round1 0 = 0 := by
  rw [round1]
  norm_num

theorem outSvcs_nil_of_rows_empty {net : Network} {hub eid : Nat}
    (hbn : net.buildings.Nodup)
    (hint : ∀ s ∈ net.services, s.building_id ∈ net.buildings)
    (he : (outRows net hub eid).isEmpty = true) : outSvcs net hub eid = [] := by
  have h0 : (outRows net hub eid).length = 0 := by
    rw [List.isEmpty_iff] at he
    rw [he]
    rfl
  rw [outRows_length hbn hint] at h0
  exact svcs_eq_nil_of_bids_nil (List.length_eq_zero.mp h0)

/-- **C1** (functional correctness of `/graph/outage/{edge_id}`): for every
edge id in the edge table, the outage endpoint returns statistics computed by
the specified pipeline — maximal-degree hub recomputed from the current
graph, before/after reachability from the hub with and without the target
edge, disconnected nodes = before minus after, pipes incident to
disconnected nodes, services on those pipes, and stats = (distinct affected
buildings, affected service count, rounded sum of affected service
lengths).  The hypotheses state the schema facts that `osm.buildings.id` is
a primary key and `synth.services.building_id` references it (the generator
inserts services only for existing buildings). -/
theorem C1_outage_pipeline (net : Network) (eid : Nat)
    (hex : edgeExists net.edges eid = true)
    (hbn : net.buildings.Nodup)
    (hint : ∀ s ∈ net.services, s.building_id ∈ net.buildings) :
    OutagePipelineSpec net eid := by
  have hne : net.edges ≠ [] := by
    rcases List.any_eq_true.mp hex with ⟨e, he, _⟩
    intro h0
    rw [h0] at he
    exact absurd he (List.not_mem_nil e)
  obtain ⟨hub, hhub⟩ := Option.isSome_iff_exists.mp (hubNode_isSome hne)
  obtain ⟨hcand, hmax⟩ := hubNode_spec hhub
  have hsub := @outage_subset_buildings net hub eid hint
  refine ⟨_, hub, get_outage_impact_ok hex hhub, hhub, hcand, hmax, ?_, ?_, ?_, rfl, ?_, ?_, ?_⟩
  · intro n
    simp only [outDisc, mem_disconnectedNodes, mem_reachSet]
  · intro p
    exact mem_affectedPipes
  · intro s
    simp only [outSvcs, mem_affectedServices, outDisc]
  · exact outRows_length hbn hint
  · by_cases he : (outRows net hub eid).isEmpty = true
    · have hnil := outSvcs_nil_of_rows_empty hbn hint he
      simp [he, hnil]
    · simp [he]
  · by_cases he : (outRows net hub eid).isEmpty = true
    · have hnil := outSvcs_nil_of_rows_empty hbn hint he
      simp only [he, if_true, hnil]
      rw [sumLengths, List.map_nil, List.sum_nil, round1_zero]
    · simp [he]

/-- Witness for C1 on a concrete three-node path network: edge 2 exists, the
building table is duplicate-free, and every service references a stored
building. -/
theorem C1_outage_pipeline_witness :
    OutagePipelineSpec
      { edges := [⟨1, 1, 2, 1⟩, ⟨2, 2, 3, 2⟩],
        services := [⟨1, 20, 2, 3/2⟩],
        buildings := [20, 30] } 2 :=
  C1_outage_pipeline _ 2 (by decide) (by decide) (by decide)

theorem affectedPipes_nil (es : List Edge) : affectedPipes es [] = [] := by
  rw [affectedPipes]
  have h : es.filter
      (fun e => ([] : List Nat).contains e.source || ([] : List Nat).contains e.target) = [] := by
    apply List.filter_eq_nil_iff.mpr
    intro e _
    simp
  rw [h]
  rfl

theorem affectedServices_nil (svcs : List Service) : affectedServices svcs [] = [] := by
  rw [affectedServices]
  apply List.filter_eq_nil_iff.mpr
  intro s _
  simp

/-- The per-edge loop body of the batch, at the precomputed full-graph
reachable set, is the `disconnected_nodes`-based count of §4.3. -/
theorem batchScore_eq (es : List Edge) (svcs : List Service) (hub eid : Nat) :
    batchScore es svcs hub (reachSet es hub) eid =
      if (disconnectedNodes es hub eid).isEmpty then 0
      else (affectedBuildingIds
        (affectedServices svcs (affectedPipes es (disconnectedNodes es hub eid)))).length :=
  rfl

/-- Batch/on-demand agreement over one fixed row order: every
`(edge id, score)` pair the batch persists matches the endpoint's
`affected_building_count` when both computations read the edge table in the
same physical row order (hence resolve any hub tie identically).  The batch
counts `COUNT(DISTINCT s.building_id)` directly on services, while the
endpoint counts rows of the `osm.buildings` join; the hypotheses carry the
schema facts (building ids unique, services reference stored buildings)
that make the two counting paths agree. -/
theorem batch_pair_matches_outage (net : Network) (p : Nat × Nat)
    (hp : p ∈ compute_criticality_scores net)
    (hbn : net.buildings.Nodup)
    (hint : ∀ s ∈ net.services, s.building_id ∈ net.buildings) :
    ∃ r, get_outage_impact net p.1 = .ok r ∧
      r.stats.affected_building_count = p.2 := by
  rw [compute_criticality_scores] at hp
  simp only [List.mem_map] at hp
  obtain ⟨eid, hid, hpe⟩ := hp
  subst hpe
  have hmem : eid ∈ net.edges.map (·.id) :=
    (List.perm_insertionSort (· ≤ ·) (net.edges.map (·.id))).mem_iff.mp hid
  have hex : edgeExists net.edges eid = true := edgeExists_iff.mpr hmem
  have hne : net.edges ≠ [] := by
    rcases List.mem_map.mp hmem with ⟨e, he, _⟩
    intro h0
    rw [h0] at he
    exact absurd he (List.not_mem_nil e)
  obtain ⟨hub, hhub⟩ := Option.isSome_iff_exists.mp (hubNode_isSome hne)
  refine ⟨_, get_outage_impact_ok hex hhub, ?_⟩
  simp only [hhub, Option.getD_some]
  rw [outRows_length hbn hint, batchScore_eq, outSvcs]
  by_cases hd : (disconnectedNodes net.edges hub eid).isEmpty = true
  · rw [if_pos hd, List.isEmpty_iff.mp hd, affectedPipes_nil, affectedServices_nil]
    rfl
  · rw [if_neg hd]

/-- **C6 counterexample**: the claim "affected building count is strictly
less than the total building count, for every edge" fails on a single-edge
network whose only building hangs off the far side of that edge — breaking
it cuts off every building, so the count equals the total. -/
theorem C6_counterexample :
    ¬ (∀ (net : Network) (eid : Nat) (r : OutageResponse),
        get_outage_impact net eid = .ok r →
        r.stats.affected_building_count < net.buildings.length) := by
  intro h
  have hhub : hubNode singleEdgeNet.edges = some 1 := by decide
  have hok := @get_outage_impact_ok singleEdgeNet 1 (by decide) 1 hhub
  have h1 := h singleEdgeNet 1 _ hok
  have h2 : (outRows singleEdgeNet 1 1).length = 1 := by decide
  have h3 : singleEdgeNet.buildings.length = 1 := by decide
  simp only [h2, h3] at h1
  exact absurd h1 (by decide)

/-- **C6 amended**: the affected building count reported by the outage
endpoint never exceeds the total building count (the strict bound of the
claim fails when a single edge feeds every served building, as in the
counterexample). -/
theorem C6_amended_count_le_total (net : Network) (eid : Nat) (r : OutageResponse)
    (h : get_outage_impact net eid = .ok r) :
    r.stats.affected_building_count ≤ net.buildings.length := by
  rw [get_outage_impact] at h
  by_cases hex : edgeExists net.edges eid = true
  · rw [if_pos hex] at h
    injection h with h
    subst h
    exact List.length_filter_le _ _
  · rw [if_neg hex] at h
    exact absurd h (by simp)

/-- Witness for the amended C6 on the single-edge network: the returned
count (1) equals the total (1), attaining the bound. -/
theorem C6_amended_witness :
    ∃ r, get_outage_impact singleEdgeNet 1 = .ok r ∧
      r.stats.affected_building_count ≤ singleEdgeNet.buildings.length := by
  have hhub : hubNode singleEdgeNet.edges = some 1 := by decide
  have hok := @get_outage_impact_ok singleEdgeNet 1 (by decide) 1 hhub
  exact ⟨_, hok, C6_amended_count_le_total _ 1 _ hok⟩

/-- **C7** (error handling of `/graph/outage/{edge_id}`): the endpoint fails
with NotFound exactly when the edge id is absent from the edge table; and
for an existing edge that is not a bridge relative to the hub (removing it
keeps every hub-reachable node reachable), it succeeds with an empty feature
collection and all three statistics zero — a valid outcome distinct from the
NotFound error. -/
theorem C7_notfound_iff_and_empty (net : Network) (eid : Nat) :
    (get_outage_impact net eid = .error .notFound ↔ eid ∉ net.edges.map (·.id)) ∧
    (∀ hub, hubNode net.edges = some hub →
      eid ∈ net.edges.map (·.id) →
      (∀ n ∈ reachSet net.edges hub, n ∈ reachSet (removeEdge net.edges eid) hub) →
      get_outage_impact net eid = .ok
        { features := [],
          stats :=
            { affected_building_count := 0, affected_service_count := 0,
              total_service_length_m := 0 } }) := by
  constructor
  · by_cases hex : edgeExists net.edges eid = true
    · rw [get_outage_impact, if_pos hex]
      constructor
      · intro h
        exact Except.noConfusion h
      · intro h
        exact absurd (edgeExists_iff.mp hex) h
    · rw [get_outage_impact, if_neg hex]
      constructor
      · intro _ hmem
        exact hex (edgeExists_iff.mpr hmem)
      · intro _
        rfl
  · intro hub hhub hmem hbridge
    have hex : edgeExists net.edges eid = true := edgeExists_iff.mpr hmem
    have hdisc : disconnectedNodes net.edges hub eid = [] := by
      apply List.filter_eq_nil_iff.mpr
      intro n hn
      have hc : (reachSet (removeEdge net.edges eid) hub).contains n = true :=
        contains_iff.mpr (hbridge n hn)
      rw [hc]
      simp
    have h1 : outSvcs net hub eid = [] := by
      rw [outSvcs, hdisc, affectedPipes_nil, affectedServices_nil]
    have h2 : outRows net hub eid = [] := by
      rw [outRows, h1]
      apply List.filter_eq_nil_iff.mpr
      intro b _
      simp [affectedBuildingIds, dedupFirst]
    rw [get_outage_impact_ok hex hhub, h2, h1]
    rfl

/-- Witness for C7: on the path network, id 9 is absent and yields NotFound;
on a triangle (redundant loop), removing edge 1 disconnects nothing and the
endpoint returns the empty zero-valued response. -/
theorem C7_witness :
    (get_outage_impact
        { edges := [⟨1, 1, 2, 1⟩, ⟨2, 2, 3, 2⟩],
          services := [⟨1, 20, 2, 3/2⟩], buildings := [20, 30] } 9 = .error .notFound) ∧
    (get_outage_impact
        { edges := [⟨1, 1, 2, 1⟩, ⟨2, 2, 3, 2⟩, ⟨3, 3, 1, 3⟩],
          services := [⟨1, 20, 2, 3/2⟩], buildings := [20, 30] } 1 = .ok
      { features := [],
        stats :=
          { affected_building_count := 0, affected_service_count := 0,
            total_service_length_m := 0 } }) :=
  ⟨(C7_notfound_iff_and_empty _ 9).1.mpr (by decide),
    (C7_notfound_iff_and_empty _ 1).2 1 (by decide) (by decide) (by decide)⟩

theorem removeEdge_mem_congr {es₁ es₂ : List Edge} (he : ∀ e, e ∈ es₁ ↔ e ∈ es₂) (eid : Nat) :
    ∀ e, e ∈ removeEdge es₁ eid ↔ e ∈ removeEdge es₂ eid := by
  intro e
  rw [mem_removeEdge, mem_removeEdge]
  exact and_congr_left fun _ => he e

theorem disconnectedNodes_mem_congr {es₁ es₂ : List Edge} (he : ∀ e, e ∈ es₁ ↔ e ∈ es₂)
    (hub eid : Nat) :
    ∀ n, n ∈ disconnectedNodes es₁ hub eid ↔ n ∈ disconnectedNodes es₂ hub eid := by
  intro n
  rw [mem_disconnectedNodes, mem_disconnectedNodes]
  exact and_congr (mem_reachSet_congr he)
    (not_congr (mem_reachSet_congr (removeEdge_mem_congr he eid)))

theorem affectedPipes_mem_congr {es₁ es₂ : List Edge} (he : ∀ e, e ∈ es₁ ↔ e ∈ es₂)
    {d₁ d₂ : List Nat} (hd : ∀ n, n ∈ d₁ ↔ n ∈ d₂) :
    ∀ p, p ∈ affectedPipes es₁ d₁ ↔ p ∈ affectedPipes es₂ d₂ := by
  intro p
  rw [mem_affectedPipes, mem_affectedPipes]
  constructor <;> rintro ⟨e, hme, rfl, hd'⟩
  · exact ⟨e, (he e).mp hme, rfl, hd'.imp (hd _).mp (hd _).mp⟩
  · exact ⟨e, (he e).mpr hme, rfl, hd'.imp (hd _).mpr (hd _).mpr⟩

theorem isEmpty_congr {l₁ l₂ : List Nat} (h : ∀ x, x ∈ l₁ ↔ x ∈ l₂) :
    l₁.isEmpty = l₂.isEmpty := by
  rw [Bool.eq_iff_iff, List.isEmpty_iff, List.isEmpty_iff,
    List.eq_nil_iff_forall_not_mem, List.eq_nil_iff_forall_not_mem]
  constructor
  · intro h1 a ha
    exact h1 a ((h a).mpr ha)
  · intro h2 a ha
    exact h2 a ((h a).mp ha)

/-- The per-edge batch score depends on the edge table only through its
membership set: reordering the rows (with the same hub) cannot change it. -/
theorem batchScore_congr {es₁ es₂ : List Edge} (svcs : List Service) (hub eid : Nat)
    (he : ∀ e, e ∈ es₁ ↔ e ∈ es₂) :
    batchScore es₁ svcs hub (reachSet es₁ hub) eid =
      batchScore es₂ svcs hub (reachSet es₂ hub) eid := by
  rw [batchScore_eq, batchScore_eq]
  have hd := disconnectedNodes_mem_congr he hub eid
  have hp := affectedPipes_mem_congr he hd
  have hs : affectedServices svcs (affectedPipes es₁ (disconnectedNodes es₁ hub eid)) =
      affectedServices svcs (affectedPipes es₂ (disconnectedNodes es₂ hub eid)) := by
    rw [affectedServices, affectedServices]
    apply List.filter_congr
    intro s _
    exact contains_eq_of_mem_iff hp s.pipe_id
  rw [isEmpty_congr hd, hs]

/-- **C3 counterexample**: batch idempotence fails as stated.  On the path
1–2–3–4 (one building served through the last edge) nodes 2 and 3 tie for
the hub; presenting the same edge set in two row orders makes the
`LIMIT 1` hub selection pick node 2 in one run and node 3 in the other, and
the persisted score for edge 2 differs (1 vs 0). -/
theorem C3_counterexample :
    ¬ (∀ (net₁ net₂ : Network),
        net₁.edges.Perm net₂.edges →
        net₁.services = net₂.services →
        net₁.buildings = net₂.buildings →
        compute_criticality_scores net₁ = compute_criticality_scores net₂) := by
  intro h
  have h1 := h
    { edges := [⟨1, 1, 2, 1⟩, ⟨2, 2, 3, 2⟩, ⟨3, 3, 4, 3⟩],
      services := [⟨1, 10, 3, 1⟩], buildings := [10] }
    { edges := [⟨3, 3, 4, 3⟩, ⟨2, 2, 3, 2⟩, ⟨1, 1, 2, 1⟩],
      services := [⟨1, 10, 3, 1⟩], buildings := [10] }
    (by decide) rfl rfl
  exact absurd h1 (by decide)

/-- The batch score list depends on the edge table only through its
multiset, provided both presentations resolve the hub selection to the same
node. -/
theorem criticality_scores_congr (net₁ net₂ : Network)
    (hperm : net₁.edges.Perm net₂.edges)
    (hsvc : net₁.services = net₂.services)
    (hhub : hubNode net₁.edges = hubNode net₂.edges) :
    compute_criticality_scores net₁ = compute_criticality_scores net₂ := by
  have he : ∀ e, e ∈ net₁.edges ↔ e ∈ net₂.edges := fun e => hperm.mem_iff
  have hids : List.insertionSort (· ≤ ·) (net₁.edges.map (·.id)) =
      List.insertionSort (· ≤ ·) (net₂.edges.map (·.id)) :=
    List.eq_of_perm_of_sorted
      (((List.perm_insertionSort _ _).trans (hperm.map _)).trans
        (List.perm_insertionSort _ _).symm)
      (List.sorted_insertionSort _ _) (List.sorted_insertionSort _ _)
  rw [compute_criticality_scores, compute_criticality_scores, hids, hsvc, hhub]
  apply List.map_congr_left
  intro eid _
  exact congrArg _ (batchScore_congr net₂.services _ eid he)

/-- **C3 amended**: re-running the batch on an unchanged graph (same edge
multiset, same services) produces identical per-edge scores **provided both
runs resolve the hub selection to the same node** — which the unspecified
`ORDER BY ... DESC LIMIT 1` tie-break guarantees only when the
maximum-combined-degree node is unique.  With several tied hub candidates
the scores may differ between runs (see the counterexample). -/
theorem C3_amended_idempotent_same_hub (net₁ net₂ : Network)
    (hperm : net₁.edges.Perm net₂.edges)
    (hsvc : net₁.services = net₂.services)
    (hhub : hubNode net₁.edges = hubNode net₂.edges) :
    compute_criticality_scores net₁ = compute_criticality_scores net₂ :=
  criticality_scores_congr net₁ net₂ hperm hsvc hhub

/-- Witness for the amended C3: the two-edge path presented in both row
orders has a unique maximum-degree node (node 2), the hub selections agree,
and the score lists coincide. -/
theorem C3_amended_witness :
    compute_criticality_scores
        { edges := [⟨1, 1, 2, 1⟩, ⟨2, 2, 3, 2⟩],
          services := [⟨1, 20, 2, 3/2⟩], buildings := [20, 30] } =
      compute_criticality_scores
        { edges := [⟨2, 2, 3, 2⟩, ⟨1, 1, 2, 1⟩],
          services := [⟨1, 20, 2, 3/2⟩], buildings := [20, 30] } :=
  C3_amended_idempotent_same_hub _ _ (by decide) rfl (by decide)

/-- **C2 counterexample**: the batch/on-demand agreement fails on the same
unchanged graph (same edge multiset, database row order unspecified) when
hub candidates tie.  On the path 1–2–3–4 with building 10 served through
the last edge, the batch over one row order picks hub 2 and persists score
1 for edge 2, while the on-demand endpoint reading the same graph in the
reverse row order resolves the tie to hub 3 and reports 0 affected
buildings for edge 2. -/
theorem C2_counterexample :
    ¬ (∀ (net₁ net₂ : Network),
        net₁.edges.Perm net₂.edges →
        net₁.services = net₂.services →
        net₁.buildings = net₂.buildings →
        net₂.buildings.Nodup →
        (∀ s ∈ net₂.services, s.building_id ∈ net₂.buildings) →
        ∀ p ∈ compute_criticality_scores net₁,
          ∃ r, get_outage_impact net₂ p.1 = .ok r ∧
            r.stats.affected_building_count = p.2) := by
  intro h
  obtain ⟨r, hok, hcount⟩ := h tiePathNet tiePathNetRev
    (by decide) rfl rfl (by decide) (by decide)
    ((2 : Nat), (1 : Nat)) (by decide)
  have hok2 := @get_outage_impact_ok tiePathNetRev 2 (by decide) 3 (by decide)
  rw [hok2] at hok
  injection hok with hok
  subst hok
  have hcount1 : (outRows tiePathNetRev 3 2).length = 1 := hcount
  have hzero : (outRows tiePathNetRev 3 2).length = 0 := by decide
  rw [hzero] at hcount1
  exact absurd hcount1 (by decide)

/-- **C2 amended** (batch/on-demand refinement up to hub resolution): every
`(edge id, score)` pair the batch persists matches what the on-demand
endpoint reports as `affected_building_count` for that edge on the same
unchanged graph — same edge multiset, services and buildings in any row
order — **provided the batch run and the on-demand call resolve the hub
selection to the same node** (guaranteed whenever the maximum combined
incident-edge count is attained by a unique node; with tied candidates the
unspecified `LIMIT 1` tie-break can make them differ, see the
counterexample).  Reusing one hub and one full-graph before-set across all
edges is sound because both are pure functions of the edge table; the
schema hypotheses (building ids unique, services reference stored
buildings) reconcile the two counting paths. -/
theorem C2_amended_batch_matches_ondemand (net₁ net₂ : Network) (p : Nat × Nat)
    (hperm : net₁.edges.Perm net₂.edges)
    (hsvc : net₁.services = net₂.services)
    (_hbld : net₁.buildings = net₂.buildings)
    (hhub : hubNode net₁.edges = hubNode net₂.edges)
    (hp : p ∈ compute_criticality_scores net₁)
    (hbn : net₂.buildings.Nodup)
    (hint : ∀ s ∈ net₂.services, s.building_id ∈ net₂.buildings) :
    ∃ r, get_outage_impact net₂ p.1 = .ok r ∧
      r.stats.affected_building_count = p.2 := by
  rw [criticality_scores_congr net₁ net₂ hperm hsvc hhub] at hp
  exact batch_pair_matches_outage net₂ p hp hbn hint

/-- Witness for the amended C2: on the two-edge path, whose maximum-degree
node is unique, the batch over one row order persists score 1 for edge 2
and the endpoint over the reverse row order reports the same count. -/
theorem C2_amended_witness :
    ∃ r,
      get_outage_impact pathNetRev (((2 : Nat), (1 : Nat)) : Nat × Nat).1 = .ok r ∧
      r.stats.affected_building_count = (((2 : Nat), (1 : Nat)) : Nat × Nat).2 :=
  C2_amended_batch_matches_ondemand pathNet pathNetRev _
    (by decide) rfl rfl (by decide) (by decide) (by decide) (by decide)

/-- `find?` over `range m` returns the least index satisfying the
predicate. -/
theorem find?_range_eq_some {P : Nat → Bool} :
    ∀ {m d : Nat},
      (List.range m).find? P = some d ↔ d < m ∧ P d = true ∧ ∀ j < d, P j = false := by
  intro m
  induction m with
  | zero =>
    intro d
    simp [List.range_zero]
  | succ m ih =>
    intro d
    rw [List.range_succ, List.find?_append]
    cases hfm : (List.range m).find? P with
    | some d' =>
      have hred : (some d').or (List.find? P [m]) = some d' := rfl
      rw [hred]
      rw [ih] at hfm
      obtain ⟨hd'm, hPd', hmin'⟩ := hfm
      constructor
      · intro h
        injection h with h
        subst h
        exact ⟨Nat.lt_succ_of_lt hd'm, hPd', hmin'⟩
      · rintro ⟨hdm, hPd, hmin⟩
        have hdd : d = d' := by
          rcases Nat.lt_trichotomy d d' with h | h | h
          · rw [hmin' d h] at hPd
            exact Bool.noConfusion hPd
          · exact h
          · rw [hmin d' h] at hPd'
            exact Bool.noConfusion hPd'
        rw [hdd]
    | none =>
      have hall : ∀ j < m, P j = false := by
        intro j hj
        have h := List.find?_eq_none.mp hfm j (List.mem_range.mpr hj)
        simpa using h
      have hred : (Option.none).or (List.find? P [m]) = List.find? P [m] := rfl
      rw [hred]
      by_cases hPm : P m = true
      · rw [List.find?_cons_of_pos _ hPm]
        constructor
        · intro h
          injection h with h
          subst h
          exact ⟨Nat.lt_succ_self m, hPm, hall⟩
        · rintro ⟨hdm, hPd, hmin⟩
          have hdm' : d = m := by
            rcases Nat.lt_trichotomy d m with h | h | h
            · rw [hall d h] at hPd
              exact Bool.noConfusion hPd
            · exact h
            · omega
          rw [hdm']
      · rw [List.find?_cons_of_neg _ (by simpa using hPm), List.find?_nil]
        constructor
        · intro h
          exact Option.noConfusion h
        · rintro ⟨hdm, hPd, hmin⟩
          exfalso
          rcases Nat.lt_trichotomy d m with h | h | h
          · rw [hall d h] at hPd
            exact Bool.noConfusion hPd
          · rw [h] at hPd
            exact hPm hPd
          · omega

theorem mem_reachLayer_iff {es : List Edge} {src k n : Nat} :
    n ∈ reachLayer es src k ↔ ∃ j ≤ k, Reaches es src n j := by
  rw [reachLayer]
  exact mem_iterate_reachStep

theorem HopDist_unique {es : List Edge} {src n d₁ d₂ : Nat}
    (h₁ : HopDist es src n d₁) (h₂ : HopDist es src n d₂) : d₁ = d₂ := by
  rcases Nat.lt_trichotomy d₁ d₂ with h | h | h
  · exact absurd h₁.1 (h₂.2 d₁ h)
  · exact h
  · exact absurd h₂.1 (h₁.2 d₂ h)

/-- The hop value `pgr_drivingDistance` reports for a node is exactly its
hop distance, provided that distance is within the bound. -/
theorem nodeHop_eq_some_iff {es : List Edge} {src bound n d : Nat} :
    nodeHop es src bound n = some d ↔ d ≤ bound ∧ HopDist es src n d := by
  rw [nodeHop, find?_range_eq_some]
  constructor
  · rintro ⟨hdm, hPd, hmin⟩
    obtain ⟨j, hjd, hr⟩ := mem_reachLayer_iff.mp (contains_iff.mp hPd)
    have hnot : ∀ j' < d, ¬ Reaches es src n j' := by
      intro j' hj' hr'
      have hc : (reachLayer es src j').contains n = true :=
        contains_iff.mpr (mem_reachLayer_iff.mpr ⟨j', le_refl j', hr'⟩)
      rw [hmin j' hj'] at hc
      exact Bool.noConfusion hc
    rcases Nat.lt_or_ge j d with hlt | hge
    · exact absurd hr (hnot j hlt)
    · have hjd' : j = d := le_antisymm hjd hge
      subst hjd'
      exact ⟨by omega, hr, hnot⟩
  · rintro ⟨hdb, hr, hmin⟩
    refine ⟨by omega, contains_iff.mpr (mem_reachLayer_iff.mpr ⟨d, le_refl d, hr⟩), ?_⟩
    intro j hj
    by_contra hP
    have hPj : (reachLayer es src j).contains n = true := by
      cases hPc : (reachLayer es src j).contains n
      · exact absurd hPc hP
      · rfl
    obtain ⟨i, hij, hri⟩ := mem_reachLayer_iff.mp (contains_iff.mp hPj)
    exact hmin i (lt_of_le_of_lt hij hj) hri

/-- A node unreached within the bound has hop distance above the bound. -/
theorem nodeHop_none_dist_gt {es : List Edge} {src bound n d : Nat}
    (hn : nodeHop es src bound n = none) (hd : HopDist es src n d) : bound < d := by
  by_contra h
  push_neg at h
  have hP := List.find?_eq_none.mp hn d (List.mem_range.mpr (by omega))
  exact hP (contains_iff.mpr (mem_reachLayer_iff.mpr ⟨d, le_refl d, hd.1⟩))

theorem get_spread_eq_none {net : Network} {dist : Edge → Rat} {mh : Nat}
    (h : find_nearest_edge dist net.edges = none) :
    get_spread net dist mh = .error .notFound := by
  rw [get_spread, h]

theorem get_spread_eq_nofind {net : Network} {dist : Edge → Rat} {mh : Nat} {e0 : Edge}
    (h0 : find_nearest_edge dist net.edges = some e0)
    (h1 : net.edges.find? (fun e => e.id == e0.id) = none) :
    get_spread net dist mh = .error .notFound := by
  rw [get_spread, h0]
  show (match net.edges.find? (fun e => e.id == e0.id) with
    | none => (.error .notFound : Except ApiError (List SpreadRow))
    | some e1 => .ok (spreadRows net.edges e1.source mh)) = _
  rw [h1]

theorem get_spread_eq_some {net : Network} {dist : Edge → Rat} {mh : Nat} {e0 e1 : Edge}
    (h0 : find_nearest_edge dist net.edges = some e0)
    (h1 : net.edges.find? (fun e => e.id == e0.id) = some e1) :
    get_spread net dist mh = .ok (spreadRows net.edges e1.source mh) := by
  rw [get_spread, h0]
  show (match net.edges.find? (fun e => e.id == e0.id) with
    | none => (.error .notFound : Except ApiError (List SpreadRow))
    | some e1 => .ok (spreadRows net.edges e1.source mh)) = _
  rw [h1]

/-- A row hop value within the bound is attained by one endpoint's hop
distance. -/
theorem spread_hop_attained {es : List Edge} {origin mh : Nat} (e : Edge)
    (hle : min ((nodeHop es origin mh e.source).getD (mh + 1))
        ((nodeHop es origin mh e.target).getD (mh + 1)) ≤ mh) :
    HopDist es origin e.source (min ((nodeHop es origin mh e.source).getD (mh + 1))
        ((nodeHop es origin mh e.target).getD (mh + 1))) ∨
      HopDist es origin e.target (min ((nodeHop es origin mh e.source).getD (mh + 1))
        ((nodeHop es origin mh e.target).getD (mh + 1))) := by
  rcases le_total ((nodeHop es origin mh e.source).getD (mh + 1))
      ((nodeHop es origin mh e.target).getD (mh + 1)) with hmle | hmle
  · left
    rw [min_eq_left hmle]
    rw [min_eq_left hmle] at hle
    cases hs : nodeHop es origin mh e.source with
    | none =>
      rw [hs] at hle
      simp only [Option.getD_none] at hle
      omega
    | some d =>
      simp only [Option.getD_some]
      exact (nodeHop_eq_some_iff.mp hs).2
  · right
    rw [min_eq_right hmle]
    rw [min_eq_right hmle] at hle
    cases ht : nodeHop es origin mh e.target with
    | none =>
      rw [ht] at hle
      simp only [Option.getD_none] at hle
      omega
    | some d =>
      simp only [Option.getD_some]
      exact (nodeHop_eq_some_iff.mp ht).2

/-- A row hop value within the bound is a lower bound for the source
endpoint's hop distance. -/
theorem spread_hop_le_source {es : List Edge} {origin mh : Nat} (e : Edge)
    (hle : min ((nodeHop es origin mh e.source).getD (mh + 1))
        ((nodeHop es origin mh e.target).getD (mh + 1)) ≤ mh) :
    ∀ d, HopDist es origin e.source d →
      min ((nodeHop es origin mh e.source).getD (mh + 1))
        ((nodeHop es origin mh e.target).getD (mh + 1)) ≤ d := by
  intro d hd
  cases hs : nodeHop es origin mh e.source with
  | none =>
    have hgt := nodeHop_none_dist_gt hs hd
    rw [hs] at hle
    exact le_of_lt (lt_of_le_of_lt hle hgt)
  | some d₀ =>
    have hdd : d = d₀ := HopDist_unique hd (nodeHop_eq_some_iff.mp hs).2
    subst hdd
    simp only [Option.getD_some]
    exact Nat.min_le_left _ _

/-- A row hop value within the bound is a lower bound for the target
endpoint's hop distance. -/
theorem spread_hop_le_target {es : List Edge} {origin mh : Nat} (e : Edge)
    (hle : min ((nodeHop es origin mh e.source).getD (mh + 1))
        ((nodeHop es origin mh e.target).getD (mh + 1)) ≤ mh) :
    ∀ d, HopDist es origin e.target d →
      min ((nodeHop es origin mh e.source).getD (mh + 1))
        ((nodeHop es origin mh e.target).getD (mh + 1)) ≤ d := by
  intro d hd
  cases ht : nodeHop es origin mh e.target with
  | none =>
    have hgt := nodeHop_none_dist_gt ht hd
    rw [ht] at hle
    exact le_of_lt (lt_of_le_of_lt hle hgt)
  | some d₀ =>
    have hdd : d = d₀ := HopDist_unique hd (nodeHop_eq_some_iff.mp ht).2
    subst hdd
    simp only [Option.getD_some]
    exact Nat.min_le_right _ _

/-- The spread query fulfills the §4.4 row contract for any origin. -/
theorem spreadRows_spec (es : List Edge) (origin mh : Nat) :
    SpreadRowsSpec es origin mh (spreadRows es origin mh) := by
  constructor
  · intro r hr
    simp only [spreadRows] at hr
    rw [(List.perm_insertionSort spreadRowLE _).mem_iff] at hr
    rcases List.mem_filter.mp hr with ⟨hmap, hle⟩
    rcases List.mem_map.mp hmap with ⟨e, hej, heq⟩
    rcases List.mem_filter.mp hej with ⟨hes, _⟩
    subst heq
    have hhople : min ((nodeHop es origin mh e.source).getD (mh + 1))
        ((nodeHop es origin mh e.target).getD (mh + 1)) ≤ mh := of_decide_eq_true hle
    exact ⟨hhople, e, hes, rfl, spread_hop_attained e hhople,
      spread_hop_le_source e hhople, spread_hop_le_target e hhople⟩
  · exact List.sorted_insertionSort spreadRowLE _

/-- **C4** (spread hop values and ordering): whenever the spread endpoint
succeeds, every returned edge's hop value is the minimum of its endpoints'
hop distances from the propagation origin (the snapped edge's source node),
an endpoint unreached within the bound contributing no smaller value, no
returned edge exceeds `max_hops`, and the rows are ordered by
`(hop, edge id)`. -/
theorem C4_spread_hops (net : Network) (dist : Edge → Rat) (mh : Nat)
    (rows : List SpreadRow) (h : get_spread net dist mh = .ok rows) :
    ∃ e0 e1, find_nearest_edge dist net.edges = some e0 ∧
      net.edges.find? (fun e => e.id == e0.id) = some e1 ∧
      SpreadRowsSpec net.edges e1.source mh rows := by
  cases hfe : find_nearest_edge dist net.edges with
  | none =>
    rw [get_spread_eq_none hfe] at h
    exact Except.noConfusion h
  | some e0 =>
    cases hf1 : net.edges.find? (fun e => e.id == e0.id) with
    | none =>
      rw [get_spread_eq_nofind hfe hf1] at h
      exact Except.noConfusion h
    | some e1 =>
      rw [get_spread_eq_some hfe hf1] at h
      injection h with h
      subst h
      exact ⟨e0, e1, rfl, hf1, spreadRows_spec _ _ _⟩

/-- Witness for C4 on the two-edge path with a constant distance function:
the spread from edge 1's source with bound 2 returns rows
`[(1, 0), (2, 1)]`. -/
theorem C4_spread_hops_witness :
    ∃ e0 e1,
      find_nearest_edge (fun _ => (0 : Rat)) pathNet.edges = some e0 ∧
      pathNet.edges.find? (fun e => e.id == e0.id) = some e1 ∧
      SpreadRowsSpec pathNet.edges e1.source 2 [⟨1, 0⟩, ⟨2, 1⟩] :=
  C4_spread_hops pathNet (fun _ => (0 : Rat)) 2 [⟨1, 0⟩, ⟨2, 1⟩] (by decide)

theorem nearestStep_some (dist : Edge → Rat) (b e : Edge) :
    nearestStep dist (some b) e = if edgeLt dist e b then some e else some b := by
  show (if dist e < dist b then some e
    else if dist e = dist b ∧ e.id < b.id then some e else some b) =
      if edgeLt dist e b then some e else some b
  by_cases h1 : dist e < dist b
  · rw [if_pos h1, if_pos (show edgeLt dist e b from Or.inl h1)]
  · rw [if_neg h1]
    by_cases h2 : dist e = dist b ∧ e.id < b.id
    · rw [if_pos h2, if_pos (show edgeLt dist e b from Or.inr h2)]
    · have hn : ¬ edgeLt dist e b := by
        rintro (h | h)
        · exact h1 h
        · exact h2 h
      rw [if_neg h2, if_neg hn]

theorem edgeLt_trans {dist : Edge → Rat} {a b c : Edge}
    (hab : edgeLt dist a b) (hbc : edgeLt dist b c) : edgeLt dist a c := by
  rcases hab with h | ⟨he, hi⟩ <;> rcases hbc with h' | ⟨he', hi'⟩
  · exact .inl (lt_trans h h')
  · exact .inl (lt_of_lt_of_eq h he')
  · exact .inl (lt_of_eq_of_lt he h')
  · exact .inr ⟨he.trans he', Nat.lt_trans hi hi'⟩

theorem edgeLt_or_eq (dist : Edge → Rat) (a b : Edge) :
    edgeLt dist a b ∨ edgeLt dist b a ∨ (dist a = dist b ∧ a.id = b.id) := by
  rcases lt_trichotomy (dist a) (dist b) with h | h | h
  · exact .inl (.inl h)
  · rcases Nat.lt_trichotomy a.id b.id with h2 | h2 | h2
    · exact .inl (.inr ⟨h, h2⟩)
    · exact .inr (.inr ⟨h, h2⟩)
    · exact .inr (.inl (.inr ⟨h.symm, h2⟩))
  · exact .inr (.inl (.inl h))

/-- The nearest-edge scan over a nonempty table returns a minimum of the
`(distance, id)` order among the scanned rows. -/
theorem find_foldl_spec (dist : Edge → Rat) :
    ∀ (l : List Edge) (b : Edge),
      ∃ r, l.foldl (nearestStep dist) (some b) = some r ∧
        (r = b ∨ r ∈ l) ∧ ¬ edgeLt dist b r ∧ ∀ e ∈ l, ¬ edgeLt dist e r := by
  intro l
  induction l with
  | nil =>
    intro b
    refine ⟨b, rfl, .inl rfl, ?_, by simp⟩
    rintro (h | ⟨_, h⟩)
    · exact lt_irrefl _ h
    · exact Nat.lt_irrefl _ h
  | cons e l ih =>
    intro b
    rw [List.foldl_cons, nearestStep_some]
    by_cases hlt : edgeLt dist e b
    · rw [if_pos hlt]
      obtain ⟨r, hfold, hmem, hnb, hall⟩ := ih e
      refine ⟨r, hfold, ?_, ?_, ?_⟩
      · rcases hmem with rfl | hm
        · exact .inr (List.mem_cons_self _ _)
        · exact .inr (List.mem_cons_of_mem _ hm)
      · intro hbr
        exact hnb (edgeLt_trans hlt hbr)
      · intro x hx
        rcases List.mem_cons.mp hx with rfl | hm
        · exact hnb
        · exact hall x hm
    · rw [if_neg hlt]
      obtain ⟨r, hfold, hmem, hnb, hall⟩ := ih b
      refine ⟨r, hfold, ?_, hnb, ?_⟩
      · rcases hmem with rfl | hm
        · exact .inl rfl
        · exact .inr (List.mem_cons_of_mem _ hm)
      · intro x hx
        rcases List.mem_cons.mp hx with rfl | hm
        · intro her
          rcases edgeLt_or_eq dist x b with h | h | h
          · exact hlt h
          · exact hnb (edgeLt_trans h her)
          · apply hnb
            rcases her with hlt' | ⟨heq', hid'⟩
            · exact .inl (lt_of_eq_of_lt h.1.symm hlt')
            · refine .inr ⟨h.1.symm.trans heq', ?_⟩
              rw [← h.2]
              exact hid'
        · exact hall x hm

theorem find_nearest_edge_spec {dist : Edge → Rat} {es : List Edge} {r : Edge}
    (h : find_nearest_edge dist es = some r) :
    r ∈ es ∧ ∀ e ∈ es, ¬ edgeLt dist e r := by
  cases es with
  | nil => exact absurd h (by simp [find_nearest_edge])
  | cons b l =>
    rw [find_nearest_edge, List.foldl_cons] at h
    have h0 : nearestStep dist none b = some b := rfl
    rw [h0] at h
    obtain ⟨r', hfold, hmem, hnb, hall⟩ := find_foldl_spec dist l b
    rw [hfold] at h
    injection h with h
    subst h
    constructor
    · rcases hmem with rfl | hm
      · exact List.mem_cons_self _ _
      · exact List.mem_cons_of_mem _ hm
    · intro e he
      rcases List.mem_cons.mp he with rfl | hm
      · exact hnb
      · exact hall e hm

theorem find_nearest_edge_eq_none {dist : Edge → Rat} {es : List Edge} :
    find_nearest_edge dist es = none ↔ es = [] := by
  cases es with
  | nil => simp [find_nearest_edge]
  | cons b l =>
    rw [find_nearest_edge, List.foldl_cons]
    have h0 : nearestStep dist none b = some b := rfl
    rw [h0]
    obtain ⟨r, hfold, _, _, _⟩ := find_foldl_spec dist l b
    rw [hfold]
    simp

theorem eq_of_mem_of_id_eq {es : List Edge} (hids : (es.map (·.id)).Nodup)
    {e₁ e₂ : Edge} (h1 : e₁ ∈ es) (h2 : e₂ ∈ es) (hid : e₁.id = e₂.id) : e₁ = e₂ :=
  List.inj_on_of_nodup_map hids h1 h2 hid

/-- The modelled nearest-edge lookup is insensitive to the row order of the
edge table (its tie-break is fully determined by distance and id). -/
theorem find_nearest_edge_perm {dist : Edge → Rat} {es₁ es₂ : List Edge}
    (hperm : es₁.Perm es₂) (hids : (es₁.map (·.id)).Nodup) :
    find_nearest_edge dist es₁ = find_nearest_edge dist es₂ := by
  cases h1 : find_nearest_edge dist es₁ with
  | none =>
    have hn : es₁ = [] := find_nearest_edge_eq_none.mp h1
    have hn2 : es₂ = [] := by
      rw [hn] at hperm
      exact hperm.symm.eq_nil
    rw [hn2]
    exact (find_nearest_edge_eq_none.mpr rfl).symm
  | some r₁ =>
    obtain ⟨hm₁, hmin₁⟩ := find_nearest_edge_spec h1
    cases h2 : find_nearest_edge dist es₂ with
    | none =>
      have hn : es₂ = [] := find_nearest_edge_eq_none.mp h2
      rw [hn] at hperm
      rw [hperm.eq_nil] at hm₁
      exact absurd hm₁ (List.not_mem_nil _)
    | some r₂ =>
      obtain ⟨hm₂, hmin₂⟩ := find_nearest_edge_spec h2
      have hm₂' : r₂ ∈ es₁ := hperm.mem_iff.mpr hm₂
      have hm₁' : r₁ ∈ es₂ := hperm.mem_iff.mp hm₁
      have h12 : ¬ edgeLt dist r₁ r₂ := hmin₂ r₁ hm₁'
      have h21 : ¬ edgeLt dist r₂ r₁ := hmin₁ r₂ hm₂'
      rcases edgeLt_or_eq dist r₁ r₂ with h | h | h
      · exact absurd h h12
      · exact absurd h h21
      · exact congrArg some (eq_of_mem_of_id_eq hids hm₁ hm₂' h.2)

/-- The id lookup of the snapped edge is insensitive to row order when ids
are unique. -/
theorem find?_by_id_perm {es₁ es₂ : List Edge} (hperm : es₁.Perm es₂)
    (hids : (es₁.map (·.id)).Nodup) (eid : Nat) :
    es₁.find? (fun e => e.id == eid) = es₂.find? (fun e => e.id == eid) := by
  cases h1 : es₁.find? (fun e => e.id == eid) with
  | none =>
    have hnone := List.find?_eq_none.mp h1
    symm
    rw [List.find?_eq_none]
    intro x hx
    exact hnone x (hperm.mem_iff.mpr hx)
  | some e₁ =>
    have he₁ : e₁ ∈ es₁ := List.mem_of_find?_eq_some h1
    have hp₁ : e₁.id = eid := by
      have := List.find?_some h1
      simpa using this
    have hsome₂ : (es₂.find? (fun e => e.id == eid)).isSome = true :=
      List.find?_isSome.mpr ⟨e₁, hperm.mem_iff.mp he₁, by simpa⟩
    obtain ⟨e₂, h2⟩ := Option.isSome_iff_exists.mp hsome₂
    have he₂ : e₂ ∈ es₁ := hperm.mem_iff.mpr (List.mem_of_find?_eq_some h2)
    have hp₂ : e₂.id = eid := by
      have := List.find?_some h2
      simpa using this
    rw [h2]
    exact congrArg some (eq_of_mem_of_id_eq hids he₁ he₂ (hp₁.trans hp₂.symm))

theorem mem_reachLayer_congr {es₁ es₂ : List Edge} (he : ∀ e, e ∈ es₁ ↔ e ∈ es₂)
    (src k x : Nat) : x ∈ reachLayer es₁ src k ↔ x ∈ reachLayer es₂ src k := by
  rw [reachLayer, reachLayer]
  exact mem_iterate_reachStep_congr he (fun _ => Iff.rfl) k x

theorem nodeHop_congr {es₁ es₂ : List Edge} (he : ∀ e, e ∈ es₁ ↔ e ∈ es₂)
    (src bound n : Nat) : nodeHop es₁ src bound n = nodeHop es₂ src bound n := by
  rw [nodeHop, nodeHop]
  congr 1
  funext k
  exact contains_eq_of_mem_iff (fun x => mem_reachLayer_congr he src k x) n

/-- The spread query result is a function of the edge multiset (row order
does not matter): the `(hop, edge id)` ordering pins down a unique output. -/
theorem spreadRows_perm_eq {es₁ es₂ : List Edge} (hperm : es₁.Perm es₂) (src mh : Nat) :
    spreadRows es₁ src mh = spreadRows es₂ src mh := by
  have he : ∀ e, e ∈ es₁ ↔ e ∈ es₂ := fun e => hperm.mem_iff
  have hnh : ∀ n, nodeHop es₂ src mh n = nodeHop es₁ src mh n :=
    fun n => (nodeHop_congr he src mh n).symm
  simp only [spreadRows, hnh]
  exact List.eq_of_perm_of_sorted
    ((List.perm_insertionSort _ _).trans
      ((((hperm.filter _).map _).filter _).trans (List.perm_insertionSort _ _).symm))
    (List.sorted_insertionSort _ _) (List.sorted_insertionSort _ _)

/-- **C5** (determinism of `/graph/spread`): two runs with the same origin
(same point-to-edge distances) and the same `max_hops` against the same
graph — the same edge table up to physical row order, with `id` its primary
key — return identical responses: identical edge sets with identical hop
assignments, in identical order. -/
theorem C5_spread_deterministic (net₁ net₂ : Network) (dist : Edge → Rat) (mh : Nat)
    (hperm : net₁.edges.Perm net₂.edges)
    (hids : (net₁.edges.map (·.id)).Nodup) :
    get_spread net₁ dist mh = get_spread net₂ dist mh := by
  have hfe : find_nearest_edge dist net₁.edges = find_nearest_edge dist net₂.edges :=
    find_nearest_edge_perm hperm hids
  cases hf1 : find_nearest_edge dist net₁.edges with
  | none =>
    rw [get_spread_eq_none hf1, get_spread_eq_none (hfe.symm.trans hf1)]
  | some e0 =>
    have hf2 : find_nearest_edge dist net₂.edges = some e0 := hfe.symm.trans hf1
    have hfind := find?_by_id_perm hperm hids e0.id
    cases hq1 : net₁.edges.find? (fun e => e.id == e0.id) with
    | none =>
      rw [get_spread_eq_nofind hf1 hq1, get_spread_eq_nofind hf2 (hfind.symm.trans hq1)]
    | some e1 =>
      rw [get_spread_eq_some hf1 hq1, get_spread_eq_some hf2 (hfind.symm.trans hq1)]
      exact congrArg Except.ok (spreadRows_perm_eq hperm e1.source mh)

/-- Witness for C5: the two-edge path presented in both row orders yields
the same spread response for the same origin and bound. -/
theorem C5_spread_deterministic_witness :
    get_spread pathNet (fun _ => (0 : Rat)) 2 = get_spread pathNetRev (fun _ => (0 : Rat)) 2 :=
  C5_spread_deterministic pathNet pathNetRev (fun _ => (0 : Rat)) 2 (by decide) (by decide)

/-- **C9** (implicit: the snapped edge is in its own spread): whenever the
spread endpoint succeeds, the edge the origin snapped to appears in the
result with hop 0 — its source node is the propagation origin, at distance
0 — so a successful spread response is never empty. -/
theorem C9_spread_snapped_edge (net : Network) (dist : Edge → Rat) (mh : Nat) (e0 : Edge)
    (hfe : find_nearest_edge dist net.edges = some e0) :
    ∃ rows, get_spread net dist mh = .ok rows ∧
      (∃ r ∈ rows, r.edge_id = e0.id ∧ r.hop = 0) ∧ rows ≠ [] := by
  have he0 : e0 ∈ net.edges := (find_nearest_edge_spec hfe).1
  have hsome : (net.edges.find? (fun e => e.id == e0.id)).isSome = true :=
    List.find?_isSome.mpr ⟨e0, he0, by simp⟩
  obtain ⟨e1, hf1⟩ := Option.isSome_iff_exists.mp hsome
  have hid1 : e1.id = e0.id := by
    have := List.find?_some hf1
    simpa using this
  have he1 : e1 ∈ net.edges := List.mem_of_find?_eq_some hf1
  have hnh : nodeHop net.edges e1.source mh e1.source = some 0 :=
    nodeHop_eq_some_iff.mpr
      ⟨Nat.zero_le mh, ⟨.refl _, fun j hj => absurd hj (Nat.not_lt_zero j)⟩⟩
  have hmemrow : (⟨e1.id, 0⟩ : SpreadRow) ∈ spreadRows net.edges e1.source mh := by
    simp only [spreadRows]
    rw [(List.perm_insertionSort spreadRowLE _).mem_iff]
    apply List.mem_filter.mpr
    refine ⟨?_, by simp⟩
    apply List.mem_map.mpr
    refine ⟨e1, ?_, ?_⟩
    · refine List.mem_filter.mpr ⟨he1, ?_⟩
      rw [hnh]
      rfl
    · rw [hnh]
      simp
  refine ⟨_, get_spread_eq_some hfe hf1, ⟨⟨e1.id, 0⟩, hmemrow, hid1, rfl⟩, ?_⟩
  intro hnil
  rw [hnil] at hmemrow
  exact absurd hmemrow (List.not_mem_nil _)

/-- Witness for C9: on the two-edge path, the origin snaps to edge 1 and
the spread result contains edge 1 at hop 0 and is nonempty. -/
theorem C9_spread_snapped_edge_witness :
    ∃ rows, get_spread pathNet (fun _ => (0 : Rat)) 3 = .ok rows ∧
      (∃ r ∈ rows, r.edge_id = (⟨1, 1, 2, 1⟩ : Edge).id ∧ r.hop = 0) ∧ rows ≠ [] :=
  C9_spread_snapped_edge pathNet (fun _ => (0 : Rat)) 3 ⟨1, 1, 2, 1⟩ (by decide)

theorem pipeNodeIds_isSome (cluster : Rat × Rat → Nat) (pipes : List Pipe)
    (ns : List GNode) (p : Pipe) :
    (pipeNodeIds cluster pipes ns p).isSome =
      ((resolveNode ns (clusterCentroid cluster pipes (cluster p.startPt))).isSome &&
        (resolveNode ns (clusterCentroid cluster pipes (cluster p.endPt))).isSome) := by
  rw [pipeNodeIds]
  cases resolveNode ns (clusterCentroid cluster pipes (cluster p.startPt)) <;>
    cases resolveNode ns (clusterCentroid cluster pipes (cluster p.endPt)) <;> rfl

theorem filterMap_pair_fst {α β : Type} (f : α → Option β) (l : List α) :
    (l.filterMap (fun a => (f a).map (fun b => (a, b)))).map Prod.fst =
      l.filter (fun a => (f a).isSome) := by
  induction l with
  | nil => rfl
  | cons a l ih =>
    rw [List.filterMap_cons, List.filter_cons]
    cases hf : f a with
    | none => simp [hf, ih]
    | some b => simp [hf, ih]

/-- **C8** (graph build invariant): for every clustering assignment and
pipe set, each stored edge's source and target resolve to stored nodes, and
the stored edges are exactly the pipes both of whose endpoint-cluster
centroids resolve to a stored node — a pipe failing resolution yields no
edge, and `build_graph` returns normally either way (its type has no error
outcome; the exclusion is the SQL `IS NOT NULL` filter, not an error). -/
theorem C8_build_graph_endpoints (cluster : Rat × Rat → Nat) (pipes : List Pipe) :
    (∀ e ∈ (build_graph cluster pipes).2,
      (∃ n ∈ (build_graph cluster pipes).1, n.id = e.source) ∧
      (∃ n ∈ (build_graph cluster pipes).1, n.id = e.target)) ∧
    ((build_graph cluster pipes).2.map (·.pipe_id) =
      (pipes.filter (fun p =>
        (resolveNode (graphNodes cluster pipes)
          (clusterCentroid cluster pipes (cluster p.startPt))).isSome &&
        (resolveNode (graphNodes cluster pipes)
          (clusterCentroid cluster pipes (cluster p.endPt))).isSome)).map (·.id)) := by
  constructor
  · intro e he
    simp only [build_graph] at he
    rcases List.mem_map.mp he with ⟨ik, hik, heq⟩
    have hsnd : ik.2 ∈ (pipes.filterMap
        (fun p => (pipeNodeIds cluster pipes (graphNodes cluster pipes) p).map
          (fun st => (p, st)))) := by
      have hm : ik.2 ∈ (pipes.filterMap
          (fun p => (pipeNodeIds cluster pipes (graphNodes cluster pipes) p).map
            (fun st => (p, st)))).enum.map Prod.snd := List.mem_map_of_mem Prod.snd hik
      rwa [List.enum_map_snd] at hm
    rcases List.mem_filterMap.mp hsnd with ⟨p, _, hp⟩
    rcases Option.map_eq_some'.mp hp with ⟨st, hst, hpair⟩
    rw [pipeNodeIds] at hst
    cases hs : resolveNode (graphNodes cluster pipes)
        (clusterCentroid cluster pipes (cluster p.startPt)) with
    | none => rw [hs] at hst; exact Option.noConfusion hst
    | some sid =>
      cases ht : resolveNode (graphNodes cluster pipes)
          (clusterCentroid cluster pipes (cluster p.endPt)) with
      | none => rw [hs, ht] at hst; exact Option.noConfusion hst
      | some tid =>
        rw [hs, ht] at hst
        injection hst with hst
        rcases Option.map_eq_some'.mp hs with ⟨ns, hns, hnsid⟩
        rcases Option.map_eq_some'.mp ht with ⟨nt, hnt, hntid⟩
        have hsource : e.source = sid := by
          rw [← heq, ← hpair, ← hst]
        have htarget : e.target = tid := by
          rw [← heq, ← hpair, ← hst]
        constructor
        · exact ⟨ns, List.mem_of_find?_eq_some hns, by rw [hnsid, hsource]⟩
        · exact ⟨nt, List.mem_of_find?_eq_some hnt, by rw [hntid, htarget]⟩
  · simp only [build_graph]
    have h1 : ∀ (kept : List (Pipe × Nat × Nat)),
        (kept.enum.map (fun ik =>
          ({ id := ik.1 + 1, source := ik.2.2.1, target := ik.2.2.2,
             pipe_id := ik.2.1.id } : Edge))).map (·.pipe_id) =
          kept.map (fun k => k.1.id) := by
      intro kept
      rw [List.map_map]
      have h2 : ((fun e : Edge => e.pipe_id) ∘ fun ik : Nat × Pipe × Nat × Nat =>
          ({ id := ik.1 + 1, source := ik.2.2.1, target := ik.2.2.2,
             pipe_id := ik.2.1.id } : Edge)) = (fun k : Pipe × Nat × Nat => k.1.id) ∘ Prod.snd :=
        rfl
      rw [h2, ← List.map_map, List.enum_map_snd]
    rw [h1]
    have h3 : (pipes.filterMap
        (fun p => (pipeNodeIds cluster pipes (graphNodes cluster pipes) p).map
          (fun st => (p, st)))).map (fun k => k.1.id) =
        ((pipes.filterMap
          (fun p => (pipeNodeIds cluster pipes (graphNodes cluster pipes) p).map
            (fun st => (p, st)))).map Prod.fst).map (·.id) := by
      rw [List.map_map]
      rfl
    rw [h3, filterMap_pair_fst]
    congr 1
    apply List.filter_congr
    intro p _
    exact pipeNodeIds_isSome cluster pipes (graphNodes cluster pipes) p

/-- Witness for C8: a single pipe with all endpoints in one cluster builds
one node and one (self-loop) edge whose endpoints resolve to it. -/
theorem C8_build_graph_endpoints_witness :
    (∀ e ∈ (build_graph (fun _ => 0) [⟨1, (0, 0), (1, 0)⟩]).2,
      (∃ n ∈ (build_graph (fun _ => 0) [⟨1, (0, 0), (1, 0)⟩]).1, n.id = e.source) ∧
      (∃ n ∈ (build_graph (fun _ => 0) [⟨1, (0, 0), (1, 0)⟩]).1, n.id = e.target)) ∧
    ((build_graph (fun _ => 0) [⟨1, (0, 0), (1, 0)⟩]).2.map (·.pipe_id) =
      (([⟨1, (0, 0), (1, 0)⟩] : List Pipe).filter (fun p =>
        (resolveNode (graphNodes (fun _ => 0) [⟨1, (0, 0), (1, 0)⟩])
          (clusterCentroid (fun _ => 0) [⟨1, (0, 0), (1, 0)⟩] ((fun _ => 0) p.startPt))).isSome &&
        (resolveNode (graphNodes (fun _ => 0) [⟨1, (0, 0), (1, 0)⟩])
          (clusterCentroid (fun _ => 0) [⟨1, (0, 0), (1, 0)⟩] ((fun _ => 0) p.endPt))).isSome)).map
        (·.id)) :=
  C8_build_graph_endpoints (fun _ => 0) [⟨1, (0, 0), (1, 0)⟩]

theorem runActions_updates (ups : List (Nat × Nat)) :
    ∀ (s : TxState),
      runActions s (ups.map (fun p => DbAction.update p.1 p.2)) =
        { committed := s.committed,
          pending := ups.foldl (fun acc p => setScore acc p.1 p.2) s.pending } := by
  induction ups with
  | nil => intro s; rfl
  | cons p ups ih =>
    intro s
    rw [List.map_cons, runActions, List.foldl_cons]
    have hstep : (ups.map (fun p => DbAction.update p.1 p.2)).foldl applyAction
        (applyAction s (.update p.1 p.2)) =
        runActions (applyAction s (.update p.1 p.2))
          (ups.map (fun p => DbAction.update p.1 p.2)) := rfl
    rw [hstep, ih]
    rfl

/-- **C10** (single-transaction batch write): the criticality batch issues
one `UPDATE` per edge followed by exactly one final `COMMIT`; a run cut off
anywhere before that commit leaves the visible (committed) store untouched,
and a complete run publishes all per-edge scores at once. -/
theorem C10_batch_single_commit (net : Network) (store : List (Nat × Nat)) :
    ((criticalityScript net).count DbAction.commit = 1 ∧
      (criticalityScript net).getLast? = some DbAction.commit) ∧
    (∀ k ≤ (compute_criticality_scores net).length,
      (runActions ⟨store, store⟩ ((criticalityScript net).take k)).committed = store) ∧
    (runActions ⟨store, store⟩ (criticalityScript net)).committed =
      (compute_criticality_scores net).foldl (fun acc p => setScore acc p.1 p.2) store := by
  refine ⟨⟨?_, ?_⟩, ?_, ?_⟩
  · rw [criticalityScript, List.count_append]
    have h1 : ((compute_criticality_scores net).map
        (fun p => DbAction.update p.1 p.2)).count DbAction.commit = 0 := by
      rw [List.count_eq_zero]
      intro hmem
      rcases List.mem_map.mp hmem with ⟨p, _, hp⟩
      exact DbAction.noConfusion hp
    rw [h1]
    rfl
  · rw [criticalityScript]
    exact List.getLast?_concat _
  · intro k hk
    rw [criticalityScript,
      List.take_append_of_le_length (by rw [List.length_map]; exact hk),
      ← List.map_take, runActions_updates]
  · rw [criticalityScript, runActions, List.foldl_append]
    have h2 := runActions_updates (compute_criticality_scores net) ⟨store, store⟩
    rw [runActions] at h2
    rw [h2]
    rfl

/-- Witness for C10: on the two-edge path network, a run that stops after
the first `UPDATE` leaves the stored scores unchanged. -/
theorem C10_batch_single_commit_witness :
    (runActions ⟨[(1, 5), (2, 7)], [(1, 5), (2, 7)]⟩
        ((criticalityScript pathNet).take 1)).committed = [(1, 5), (2, 7)] :=
  (C10_batch_single_commit pathNet [(1, 5), (2, 7)]).2.1 1 (by decide)

end UtilNet
